import Mathlib

/-!
Verification development for the Houdini-Toolbox rule-resolution code:
the node color manager (`ht/nodes/colors/manager.py`) and the AOV
definition / expansion classes (`ht/sohohooks/aovs/aov.py`).

Python dictionaries are modelled as association lists with
replace-or-append insertion (last write wins on a key, first-inserted
position kept), which matches dict assignment semantics.  Iteration
order of dicts is modelled as insertion order, the deterministic order
the spec instructs implementers to pick.
-/

namespace HT

/-- Association-list dictionary modelling a Python dict. -/
abbrev Dict (α : Type) := List (String × α)

/-- Lookup of a key, first matching pair. -/
def dlookup {α : Type} : Dict α → String → Option α
  | [], _ => none
  | (k, v) :: rest, key => if k = key then some v else dlookup rest key

/-- Dict assignment `d[k] = v`: replace the value in place if the key is
present, otherwise append the pair. -/
def dinsert {α : Type} : Dict α → String → α → Dict α
  | [], key, v => [(key, v)]
  | (k, w) :: rest, key, v =>
      if k = key then (k, v) :: rest else (k, w) :: dinsert rest key v

@[simp] theorem dlookup_nil {α : Type} (k : String) :
    dlookup ([] : Dict α) k = none := rfl

theorem dlookup_dinsert {α : Type} (d : Dict α) (k key : String) (v : α) :
    dlookup (dinsert d key v) k = if key = k then some v else dlookup d k := by
  induction d with
  | nil =>
      by_cases h : key = k <;> simp [dinsert, dlookup, h]
  | cons p rest ih =>
      obtain ⟨k', w⟩ := p
      by_cases h1 : k' = key
      · subst h1
        by_cases h2 : k' = k <;> simp [dinsert, dlookup, h2]
      · by_cases h2 : k' = k
        · subst h2
          have : ¬ key = k' := fun h => h1 h.symm
          simp [dinsert, dlookup, h1, this]
        · simp [dinsert, dlookup, h1, h2, ih]

/-! ## Color data model (`ht/nodes/colors`) -/

/-- A JSON color payload: either a scalar number or a list of numbers.
Numeric values are treated as opaque scalars (no arithmetic is performed
on them), modelled by `Int`. -/
inductive JValue : Type
  | num (n : Int)
  | arr (xs : List Int)
  deriving DecidableEq, Repr

/-- A `hou.Color` value as produced by `_buildColor`: the color-space kind
that was set together with the stored payload (for RGB the payload is the
broadcast triple). -/
structure HColor where
  kind : String
  value : JValue
  deriving DecidableEq, Repr

/-- Modelled from the spec: `ColorConstant` from `ht.nodes.colors.colors`
(not under src/) — `name`, `color`, `colorSpace` kind tag and the source
path, an immutable record. -/
structure ColorConstant where
  name : String
  color : HColor
  kind : String
  path : String
  deriving DecidableEq, Repr

/-- Modelled from the spec: `ColorEntry` from `ht.nodes.colors.colors`
(not under src/) — a direct color assignment: match pattern (`name`),
color, color-space kind and source path. -/
structure ColorEntry where
  name : String
  color : HColor
  kind : String
  path : String
  deriving DecidableEq, Repr

/-- Modelled from the spec: `ConstantEntry` from `ht.nodes.colors.colors`
(not under src/) — an indirect assignment: match pattern (`name`), the
referenced constant name and the source path. -/
structure ConstantEntry where
  name : String
  constant_name : String
  path : String
  deriving DecidableEq, Repr

/-- A stored rule-table entry: either a direct `ColorEntry` or an indirect
`ConstantEntry`. -/
inductive CEntry : Type
  | color (e : ColorEntry)
  | constant (e : ConstantEntry)
  deriving DecidableEq, Repr

/-- One raw entry record of a rule file: `{name, type, constant?, color?}`.
The `constant` field is consulted only when `ty = "constant"`, the `color`
field only otherwise, mirroring the dict accesses in
`_buildEntriesFromData`. -/
structure EntryData where
  name : String
  ty : String
  constant : String
  color : JValue
  deriving DecidableEq, Repr

/-- One raw constant record of a rule file: `{type, color}`. -/
structure ConstData where
  ty : String
  color : JValue
  deriving DecidableEq, Repr

/-- One parsed rule file (`data` in `_buildMappings`): its path plus the
optional `constants`/`names`/`nodes`/`tools` sections. -/
structure FileData where
  path : String
  constants : Option (Dict ConstData)
  names : Option (Dict (List EntryData))
  nodes : Option (Dict (List EntryData))
  tools : Option (Dict (List EntryData))
  deriving DecidableEq, Repr

/-- The three entry tables iterated by `_buildEntriesFromData`
(`("names", "nodes", "tools")`). -/
inductive AssignType : Type
  | names
  | nodes
  | tools
  deriving DecidableEq, Repr

/-- The `ColorManager` state: the four rule tables. -/
structure Manager where
  constants : Dict ColorConstant
  names : Dict (Dict CEntry)
  nodes : Dict (Dict CEntry)
  tools : Dict (Dict CEntry)
  deriving DecidableEq, Repr

/-- A fresh `ColorManager` before `_buildMappings` runs. -/
def emptyManager : Manager := ⟨[], [], [], []⟩

/-- Errors raised by the color manager code. -/
inductive MgrErr : Type
  | constantDoesNotExist (name : String)
  | invalidColorType (ty : String)
  | keyError (key : String)
  deriving DecidableEq, Repr

/-- The color types available on `hou.colorType`. -/
def validColorTypes : List String := ["RGB", "HSL", "HSV", "LAB", "XYZ"]

/-- RGB broadcast: a non-list value becomes a grey triple. -/
def broadcast : JValue → JValue
  | .num n => .arr [n, n, n]
  | .arr xs => .arr xs

/-- The color value `_buildColor` stores on success. -/
def colorVal (ty : String) (v : JValue) : HColor :=
  if ty = "RGB" then ⟨"RGB", broadcast v⟩ else ⟨ty, v⟩

/-- `_buildColor`: build a `hou.Color` from `{type, color}` data; an
unknown type raises `InvalidColorTypeError`. -/
def buildColor (ty : String) (v : JValue) : Except MgrErr HColor :=
  if ty ∈ validColorTypes then .ok (colorVal ty v)
  else .error (.invalidColorType ty)

/-- Construct one rule-table entry from raw entry data, as done in the
entry loop of `_buildEntriesFromData`: a `"constant"`-typed entry is
checked against the constants table and stored as a `ConstantEntry`,
anything else goes through `_buildColor` into a `ColorEntry`. -/
def mkEntry (path : String) (consts : Dict ColorConstant) (e : EntryData) :
    Except MgrErr CEntry :=
  if e.ty = "constant" then
    if (dlookup consts e.constant).isSome then
      .ok (.constant ⟨e.name, e.constant, path⟩)
    else
      .error (.constantDoesNotExist e.constant)
  else
    match buildColor e.ty e.color with
    | .error er => .error er
    | .ok c => .ok (.color ⟨e.name, c, e.ty, path⟩)

/-- The value `mkEntry` returns whenever it succeeds (success never
depends on the constants table for the shape of the value). -/
def mkEntryVal (path : String) (e : EntryData) : CEntry :=
  if e.ty = "constant" then .constant ⟨e.name, e.constant, path⟩
  else .color ⟨e.name, colorVal e.ty e.color, e.ty, path⟩

/-- The inner entry loop of `_buildEntriesFromData` over one category
list: each entry is built and assigned under its name (dict assignment,
so a later entry with the same name overwrites an earlier one). -/
def processEntries (path : String) (consts : Dict ColorConstant) :
    List EntryData → Dict CEntry → Except MgrErr (Dict CEntry)
  | [], d => .ok d
  | e :: rest, d =>
      match mkEntry path consts e with
      | .error er => .error er
      | .ok v => processEntries path consts rest (dinsert d e.name v)

/-- The category loop of `_buildEntriesFromData` for one assignment
section of one file: `setdefault` the category dict, then process its
entries. -/
def processCategories (path : String) (consts : Dict ColorConstant) :
    Dict (List EntryData) → Dict (Dict CEntry) → Except MgrErr (Dict (Dict CEntry))
  | [], t => .ok t
  | (c, es) :: rest, t =>
      match processEntries path consts es ((dlookup t c).getD []) with
      | .error er => .error er
      | .ok inner => processCategories path consts rest (dinsert t c inner)

/-- The file section for one of the three assignment types. -/
def fileTable (f : FileData) : AssignType → Option (Dict (List EntryData))
  | .names => f.names
  | .nodes => f.nodes
  | .tools => f.tools

/-- The manager table for one of the three assignment types
(`getattr(self, assign_type)`). -/
def mgrTable (m : Manager) : AssignType → Dict (Dict CEntry)
  | .names => m.names
  | .nodes => m.nodes
  | .tools => m.tools

/-- Store back a rebuilt manager table. -/
def setMgrTable (m : Manager) : AssignType → Dict (Dict CEntry) → Manager
  | .names, t => { m with names := t }
  | .nodes, t => { m with nodes := t }
  | .tools, t => { m with tools := t }

/-- Process one assignment section of one file
(`if assign_type not in data: continue`). -/
def applyAssignOne (m : Manager) (t : AssignType) (f : FileData) :
    Except MgrErr Manager :=
  match fileTable f t with
  | none => .ok m
  | some cats =>
      match processCategories f.path m.constants cats (mgrTable m t) with
      | .error er => .error er
      | .ok tbl => .ok (setMgrTable m t tbl)

/-- `_buildEntriesFromData` for a single file: the three assignment
sections in the fixed order `names`, `nodes`, `tools`. -/
def buildEntriesFile (m : Manager) (f : FileData) : Except MgrErr Manager :=
  match applyAssignOne m .names f with
  | .error er => .error er
  | .ok m1 =>
      match applyAssignOne m1 .nodes f with
      | .error er => .error er
      | .ok m2 => applyAssignOne m2 .tools f

/-- `ColorManager._buildEntriesFromData`: all files in processing order. -/
def buildEntriesFromData : List FileData → Manager → Except MgrErr Manager
  | [], m => .ok m
  | f :: rest, m =>
      match buildEntriesFile m f with
      | .error er => .error er
      | .ok m1 => buildEntriesFromData rest m1

/-- The constants loop of `_buildConstantsFromData` for one file. -/
def processConstants (path : String) :
    Dict ConstData → Dict ColorConstant → Except MgrErr (Dict ColorConstant)
  | [], cs => .ok cs
  | (name, cd) :: rest, cs =>
      match buildColor cd.ty cd.color with
      | .error er => .error er
      | .ok c => processConstants path rest (dinsert cs name ⟨name, c, cd.ty, path⟩)

/-- `_buildConstantsFromData` for a single file. -/
def buildConstantsFile (m : Manager) (f : FileData) : Except MgrErr Manager :=
  match f.constants with
  | none => .ok m
  | some cds =>
      match processConstants f.path cds m.constants with
      | .error er => .error er
      | .ok cs => .ok { m with constants := cs }

/-- `ColorManager._buildConstantsFromData`: all files in processing
order. -/
def buildConstantsFromData : List FileData → Manager → Except MgrErr Manager
  | [], m => .ok m
  | f :: rest, m =>
      match buildConstantsFile m f with
      | .error er => .error er
      | .ok m1 => buildConstantsFromData rest m1

/-- `ColorManager._buildMappings`: the discovered files are read in
reverse discovery order into `all_data`, then all constants are built,
then all entries. -/
def buildMappings (files : List FileData) : Except MgrErr Manager :=
  match buildConstantsFromData files.reverse emptyManager with
  | .error er => .error er
  | .ok m => buildEntriesFromData files.reverse m

/-- `ColorManager._resolveEntry`: a direct entry yields its color, a
constant entry is looked up in the constants table at resolution time
(a missing constant is a `KeyError` on the dict access). -/
def resolveEntry (m : Manager) : CEntry → Except MgrErr HColor
  | .color e => .ok e.color
  | .constant e =>
      match dlookup m.constants e.constant_name with
      | some k => .ok k.color
      | none => .error (.keyError e.constant_name)

/-- The host-side entity descriptor consumed by the resolver: node type
category name, node type name (`nameComponents()[2]`), the
manager/generator flags, the Tab menu locations of the node type
(`_getToolMenuLocations`, a host shelf query) and the node name. -/
structure NodeInfo where
  typeCategory : String
  typeName : String
  isManager : Bool
  isGenerator : Bool
  menuLocations : List String
  name : String
  deriving DecidableEq, Repr

/-- The host glob matcher `hou.patternMatch(pattern, value)`, an external
collaborator threaded through the lookups. -/
abbrev PatternMatch := String → String → Bool

/-- The first entry of a category dict (in insertion order) whose stored
pattern matches `target`, as in the `itervalues()` scans. -/
def findMatch (pm : PatternMatch) (target : String) : Dict CEntry → Option CEntry
  | [] => none
  | (_, e) :: rest =>
      if pm (match e with | .color ce => ce.name | .constant ce => ce.name) target
      then some e else findMatch pm target rest

/-- The stored pattern of an entry (`color_entry.name`). -/
def entryName : CEntry → String
  | .color ce => ce.name
  | .constant ce => ce.name

/-- `ColorManager._getTypeColor`: scan the node-type category then
`"all"` in the `nodes` table for a pattern match on the type name. -/
def getTypeColor (m : Manager) (pm : PatternMatch) (n : NodeInfo) :
    Except MgrErr (Option HColor) :=
  go [n.typeCategory, "all"]
where
  go : List String → Except MgrErr (Option HColor)
  | [] => .ok none
  | c :: rest =>
      match dlookup m.nodes c with
      | none => go rest
      | some d =>
          match findMatch pm n.typeName d with
          | some e =>
              (match resolveEntry m e with
               | .error er => .error er
               | .ok col => .ok (some col))
          | none => go rest

/-- One category step of `_getToolColor`: for each menu location in
order, scan the category dict for a pattern match. -/
def toolLocScan (m : Manager) (pm : PatternMatch) (d : Dict CEntry) :
    List String → Option CEntry
  | [] => none
  | loc :: rest =>
      match findMatch pm loc d with
      | some e => some e
      | none => toolLocScan m pm d rest

/-- `ColorManager._getToolColor`: for the node-type category then
`"all"`, scan the `tools` table against the Tab menu locations. -/
def getToolColor (m : Manager) (pm : PatternMatch) (n : NodeInfo) :
    Except MgrErr (Option HColor) :=
  go [n.typeCategory, "all"]
where
  go : List String → Except MgrErr (Option HColor)
  | [] => .ok none
  | c :: rest =>
      match dlookup m.tools c with
      | none => go rest
      | some d =>
          match toolLocScan m pm d n.menuLocations with
          | some e =>
              (match resolveEntry m e with
               | .error er => .error er
               | .ok col => .ok (some col))
          | none => go rest

/-- `ColorManager._getManagerGeneratorColor`: for the node-type category
then `"all"`, look up the literal `"manager"` key when the type is a
manager, else the literal `"generator"` key when it is a generator. -/
def getManagerGeneratorColor (m : Manager) (n : NodeInfo) :
    Except MgrErr (Option HColor) :=
  go [n.typeCategory, "all"]
where
  go : List String → Except MgrErr (Option HColor)
  | [] => .ok none
  | c :: rest =>
      match dlookup m.nodes c with
      | none => go rest
      | some d =>
          if n.isManager then
            match dlookup d "manager" with
            | some e =>
                (match resolveEntry m e with
                 | .error er => .error er
                 | .ok col => .ok (some col))
            | none => go rest
          else if n.isGenerator then
            match dlookup d "generator" with
            | some e =>
                (match resolveEntry m e with
                 | .error er => .error er
                 | .ok col => .ok (some col))
            | none => go rest
          else go rest

/-- `ColorManager._getNameEntry`: for the node-type category then
`"all"`, scan the `names` table for a pattern match on the node name. -/
def getNameEntry (m : Manager) (pm : PatternMatch) (n : NodeInfo) :
    Except MgrErr (Option HColor) :=
  go [n.typeCategory, "all"]
where
  go : List String → Except MgrErr (Option HColor)
  | [] => .ok none
  | c :: rest =>
      match dlookup m.names c with
      | none => go rest
      | some d =>
          match findMatch pm n.name d with
          | some e =>
              (match resolveEntry m e with
               | .error er => .error er
               | .ok col => .ok (some col))
          | none => go rest

/-- `ColorManager.colorNode`: type-name match first, then Tab menu
locations, then (only for manager/generator types) the literal
manager/generator lookup.  The returned `some c` means the node color is
set to `c`; `none` means no color is applied. -/
def colorNode (m : Manager) (pm : PatternMatch) (n : NodeInfo) :
    Except MgrErr (Option HColor) :=
  match getTypeColor m pm n with
  | .error er => .error er
  | .ok (some c) => .ok (some c)
  | .ok none =>
      match getToolColor m pm n with
      | .error er => .error er
      | .ok (some c) => .ok (some c)
      | .ok none =>
          if n.isManager || n.isGenerator then getManagerGeneratorColor m n
          else .ok none

/-- `ColorManager.colorNodeByName`: name-table lookup only. -/
def colorNodeByName (m : Manager) (pm : PatternMatch) (n : NodeInfo) :
    Except MgrErr (Option HColor) :=
  getNameEntry m pm n

/-! ## Characterization of the merge (load) pipeline -/

/-- Nested lookup `table[c][k]` on a two-level dict. -/
def dlookup2 {α : Type} (t : Dict (Dict α)) (c k : String) : Option α :=
  match dlookup t c with
  | some d => dlookup d k
  | none => none

/-- The last entry named `k` in a list of raw entries (the one whose dict
assignment survives). -/
def lastNamed (k : String) : List EntryData → Option EntryData
  | [] => none
  | e :: rest =>
      match lastNamed k rest with
      | some x => some x
      | none => if e.name = k then some e else none

/-- The last value stored under key `k` in an association list. -/
def lastKeyed {α : Type} (k : String) : List (String × α) → Option α
  | [] => none
  | (k', v) :: rest =>
      match lastKeyed k rest with
      | some x => some x
      | none => if k' = k then some v else none

theorem lastNamed_append (k : String) (l1 l2 : List EntryData) :
    lastNamed k (l1 ++ l2) =
      match lastNamed k l2 with
      | some x => some x
      | none => lastNamed k l1 := by
  induction l1 with
  | nil => cases h2 : lastNamed k l2 <;> simp [lastNamed, h2]
  | cons e rest ih =>
      simp only [List.cons_append, lastNamed, ih]
      cases h2 : lastNamed k l2 <;> cases hr : lastNamed k rest <;>
        simp [ih, h2, hr]

theorem lastNamed_mem {k : String} {es : List EntryData} {e : EntryData}
    (h : lastNamed k es = some e) : e ∈ es ∧ e.name = k := by
  induction es with
  | nil => simp [lastNamed] at h
  | cons e0 rest ih =>
      simp only [lastNamed] at h
      cases hrest : lastNamed k rest with
      | some x =>
          rw [hrest] at h
          obtain ⟨hm, hn⟩ := ih (hrest.trans (by injection h with h; rw [h]))
          exact ⟨List.mem_cons_of_mem _ hm, hn⟩
      | none =>
          rw [hrest] at h
          by_cases hn : e0.name = k
          · simp [hn] at h
            exact ⟨by simp [h.symm], h ▸ hn⟩
          · simp [hn] at h

theorem mkEntry_ok {path : String} {consts : Dict ColorConstant}
    {e : EntryData} {v : CEntry} (h : mkEntry path consts e = .ok v) :
    v = mkEntryVal path e := by
  unfold mkEntry at h
  unfold mkEntryVal
  by_cases hc : e.ty = "constant"
  · simp only [hc, if_pos rfl] at h ⊢
    by_cases hs : (dlookup consts e.constant).isSome
    · simp [hs] at h; exact h.symm
    · simp [hs] at h
  · simp only [if_neg hc] at h ⊢
    unfold buildColor at h
    by_cases hv : e.ty ∈ validColorTypes
    · simp [hv] at h; exact h.symm
    · simp [hv] at h

theorem mkEntry_error {path : String} {consts : Dict ColorConstant}
    {e : EntryData} {er : MgrErr} (h : mkEntry path consts e = .error er) :
    (e.ty = "constant" ∧ er = .constantDoesNotExist e.constant ∧
      dlookup consts e.constant = none) ∨
    (e.ty ≠ "constant" ∧ er = .invalidColorType e.ty ∧
      e.ty ∉ validColorTypes) := by
  unfold mkEntry at h
  by_cases hc : e.ty = "constant"
  · left
    simp only [hc, if_pos rfl] at h
    cases hs : dlookup consts e.constant with
    | some _ => simp [hs] at h
    | none =>
        simp [hs] at h
        exact ⟨hc, h.symm, rfl⟩
  · right
    simp only [if_neg hc] at h
    unfold buildColor at h
    by_cases hv : e.ty ∈ validColorTypes
    · simp [hv] at h
    · simp [hv] at h
      exact ⟨hc, h.symm, hv⟩

theorem mkEntry_ok_of {path : String} {consts : Dict ColorConstant}
    {e : EntryData}
    (h1 : e.ty = "constant" → (dlookup consts e.constant).isSome)
    (h2 : e.ty ≠ "constant" → e.ty ∈ validColorTypes) :
    mkEntry path consts e = .ok (mkEntryVal path e) := by
  unfold mkEntry mkEntryVal
  by_cases hc : e.ty = "constant"
  · simp [hc, h1 hc]
  · simp only [if_neg hc]
    unfold buildColor
    simp [h2 hc]

theorem processEntries_ok_lookup {path : String} {consts : Dict ColorConstant}
    {es : List EntryData} {d d' : Dict CEntry}
    (h : processEntries path consts es d = .ok d') (k : String) :
    dlookup d' k =
      match lastNamed k es with
      | some e => some (mkEntryVal path e)
      | none => dlookup d k := by
  induction es generalizing d with
  | nil =>
      simp only [processEntries] at h
      injection h with h
      simp [lastNamed, h]
  | cons e rest ih =>
      simp only [processEntries] at h
      cases hm : mkEntry path consts e with
      | error er => rw [hm] at h; exact absurd h (by simp)
      | ok v =>
          rw [hm] at h
          have hv := mkEntry_ok hm
          subst hv
          rw [ih h]
          simp only [lastNamed]
          cases hrest : lastNamed k rest with
          | some x => rfl
          | none =>
              rw [dlookup_dinsert]
              by_cases hn : e.name = k <;> simp [hn]

theorem processEntries_ok_all {path : String} {consts : Dict ColorConstant}
    {es : List EntryData} {d d' : Dict CEntry}
    (h : processEntries path consts es d = .ok d') :
    ∀ e ∈ es, mkEntry path consts e = .ok (mkEntryVal path e) := by
  induction es generalizing d with
  | nil => intro e he; simp at he
  | cons e0 rest ih =>
      intro e he
      simp only [processEntries] at h
      cases hm : mkEntry path consts e0 with
      | error er => rw [hm] at h; exact absurd h (by simp)
      | ok v =>
          rw [hm] at h
          rcases List.mem_cons.mp he with he0 | hrest
          · subst he0
            rw [hm, mkEntry_ok hm]
          · exact ih h e hrest

theorem processEntries_error {path : String} {consts : Dict ColorConstant}
    {es : List EntryData} {d : Dict CEntry} {er : MgrErr}
    (h : processEntries path consts es d = .error er) :
    ∃ e ∈ es, mkEntry path consts e = .error er := by
  induction es generalizing d with
  | nil => simp [processEntries] at h
  | cons e0 rest ih =>
      simp only [processEntries] at h
      cases hm : mkEntry path consts e0 with
      | error er0 =>
          rw [hm] at h
          injection h with h
          exact ⟨e0, by simp, by rw [hm, h]⟩
      | ok v =>
          rw [hm] at h
          obtain ⟨e, he, hee⟩ := ih h
          exact ⟨e, List.mem_cons_of_mem _ he, hee⟩

theorem processEntries_ok_of {path : String} {consts : Dict ColorConstant}
    {es : List EntryData}
    (h : ∀ e ∈ es, mkEntry path consts e = .ok (mkEntryVal path e)) :
    ∀ d : Dict CEntry, ∃ d', processEntries path consts es d = .ok d' := by
  induction es with
  | nil => intro d; exact ⟨d, rfl⟩
  | cons e0 rest ih =>
      intro d
      have h0 := h e0 (by simp)
      obtain ⟨d', hd'⟩ := ih (fun e he => h e (List.mem_cons_of_mem _ he))
        (dinsert d e0.name (mkEntryVal path e0))
      exact ⟨d', by simp only [processEntries, h0]; exact hd'⟩

/-- All entries a file section contributes to category `c`, in processing
order (duplicate category keys concatenate because `setdefault` finds the
already-stored inner dict). -/
def catEntries (c : String) : Dict (List EntryData) → List EntryData
  | [] => []
  | (c', es) :: rest =>
      if c' = c then es ++ catEntries c rest else catEntries c rest

theorem mem_catEntries {c : String} {cats : Dict (List EntryData)}
    {es : List EntryData} {e : EntryData}
    (hp : (c, es) ∈ cats) (he : e ∈ es) : e ∈ catEntries c cats := by
  induction cats with
  | nil => simp at hp
  | cons p rest ih =>
      obtain ⟨c', es'⟩ := p
      rcases List.mem_cons.mp hp with hp0 | hprest
      · injection hp0 with h1 h2
        subst h1
        subst h2
        simp [catEntries, he]
      · by_cases hc : c' = c <;> simp [catEntries, hc, ih hprest]

theorem catEntries_mem {c : String} {cats : Dict (List EntryData)}
    {e : EntryData} (h : e ∈ catEntries c cats) :
    ∃ es, (c, es) ∈ cats ∧ e ∈ es := by
  induction cats with
  | nil => simp [catEntries] at h
  | cons p rest ih =>
      obtain ⟨c', es'⟩ := p
      by_cases hc : c' = c
      · subst hc
        simp only [catEntries, if_pos rfl] at h
        rcases List.mem_append.mp h with h0 | h1
        · exact ⟨es', by simp, h0⟩
        · obtain ⟨es, hes, hee⟩ := ih h1
          exact ⟨es, List.mem_cons_of_mem _ hes, hee⟩
      · simp only [catEntries, if_neg hc] at h
        obtain ⟨es, hes, hee⟩ := ih h
        exact ⟨es, List.mem_cons_of_mem _ hes, hee⟩

theorem dlookup2_dinsert_self {α : Type} (t : Dict (Dict α)) (c k : String)
    (d : Dict α) : dlookup2 (dinsert t c d) c k = dlookup d k := by
  unfold dlookup2
  rw [dlookup_dinsert]
  simp

theorem dlookup2_dinsert_other {α : Type} (t : Dict (Dict α))
    (c c' k : String) (d : Dict α) (h : c ≠ c') :
    dlookup2 (dinsert t c d) c' k = dlookup2 t c' k := by
  unfold dlookup2
  rw [dlookup_dinsert]
  simp [h]

theorem dlookup_getD_none {α : Type} (t : Dict (Dict α)) (c k : String) :
    dlookup ((dlookup t c).getD []) k = dlookup2 t c k := by
  unfold dlookup2
  cases dlookup t c <;> simp

theorem processCategories_ok_lookup {path : String}
    {consts : Dict ColorConstant} {cats : Dict (List EntryData)}
    {t t' : Dict (Dict CEntry)}
    (h : processCategories path consts cats t = .ok t') (c k : String) :
    dlookup2 t' c k =
      match lastNamed k (catEntries c cats) with
      | some e => some (mkEntryVal path e)
      | none => dlookup2 t c k := by
  induction cats generalizing t with
  | nil =>
      simp only [processCategories] at h
      injection h with h
      simp [catEntries, lastNamed, h]
  | cons p rest ih =>
      obtain ⟨c0, es⟩ := p
      simp only [processCategories] at h
      cases hpe : processEntries path consts es ((dlookup t c0).getD []) with
      | error er => rw [hpe] at h; exact absurd h (by simp)
      | ok inner =>
          rw [hpe] at h
          rw [ih h]
          by_cases hc : c0 = c
          · subst hc
            have hcat : catEntries c0 ((c0, es) :: rest) =
                es ++ catEntries c0 rest := by simp [catEntries]
            rw [hcat, lastNamed_append]
            cases hrest : lastNamed k (catEntries c0 rest) with
            | some x => simp
            | none =>
                simp only []
                rw [dlookup2_dinsert_self, processEntries_ok_lookup hpe k,
                  dlookup_getD_none]
          · have hcat : catEntries c ((c0, es) :: rest) =
                catEntries c rest := by simp [catEntries, hc]
            rw [hcat]
            cases hrest : lastNamed k (catEntries c rest) with
            | some x => simp
            | none =>
                simp only []
                rw [dlookup2_dinsert_other _ _ _ _ _ hc]

theorem processCategories_ok_all {path : String}
    {consts : Dict ColorConstant} {cats : Dict (List EntryData)}
    {t t' : Dict (Dict CEntry)}
    (h : processCategories path consts cats t = .ok t') :
    ∀ c es, (c, es) ∈ cats → ∀ e ∈ es,
      mkEntry path consts e = .ok (mkEntryVal path e) := by
  induction cats generalizing t with
  | nil => intro c es hp; simp at hp
  | cons p rest ih =>
      obtain ⟨c0, es0⟩ := p
      intro c es hp e he
      simp only [processCategories] at h
      cases hpe : processEntries path consts es0 ((dlookup t c0).getD []) with
      | error er => rw [hpe] at h; exact absurd h (by simp)
      | ok inner =>
          rw [hpe] at h
          rcases List.mem_cons.mp hp with hp0 | hprest
          · injection hp0 with h1 h2
            subst h2
            exact processEntries_ok_all hpe e he
          · exact ih h c es hprest e he

theorem processCategories_error {path : String}
    {consts : Dict ColorConstant} {cats : Dict (List EntryData)}
    {t : Dict (Dict CEntry)} {er : MgrErr}
    (h : processCategories path consts cats t = .error er) :
    ∃ c es, (c, es) ∈ cats ∧ ∃ e ∈ es, mkEntry path consts e = .error er := by
  induction cats generalizing t with
  | nil => simp [processCategories] at h
  | cons p rest ih =>
      obtain ⟨c0, es0⟩ := p
      simp only [processCategories] at h
      cases hpe : processEntries path consts es0 ((dlookup t c0).getD []) with
      | error er0 =>
          rw [hpe] at h
          injection h with h
          obtain ⟨e, he, hee⟩ := processEntries_error hpe
          exact ⟨c0, es0, by simp, e, he, by rw [hee, h]⟩
      | ok inner =>
          rw [hpe] at h
          obtain ⟨c, es, hp, e, he, hee⟩ := ih h
          exact ⟨c, es, List.mem_cons_of_mem _ hp, e, he, hee⟩

theorem processCategories_ok_of {path : String}
    {consts : Dict ColorConstant} {cats : Dict (List EntryData)}
    (h : ∀ c es, (c, es) ∈ cats → ∀ e ∈ es,
      mkEntry path consts e = .ok (mkEntryVal path e)) :
    ∀ t : Dict (Dict CEntry), ∃ t',
      processCategories path consts cats t = .ok t' := by
  induction cats with
  | nil => intro t; exact ⟨t, rfl⟩
  | cons p rest ih =>
      obtain ⟨c0, es0⟩ := p
      intro t
      obtain ⟨inner, hinner⟩ := processEntries_ok_of
        (h c0 es0 (by simp)) ((dlookup t c0).getD [])
      obtain ⟨t', ht'⟩ := ih
        (fun c es hp e he => h c es (List.mem_cons_of_mem _ hp) e he)
        (dinsert t c0 inner)
      exact ⟨t', by simp only [processCategories, hinner]; exact ht'⟩

/-- All entries one file contributes under table `t`, category `c`. -/
def fileCatEntries (f : FileData) (t : AssignType) (c : String) :
    List EntryData :=
  match fileTable f t with
  | none => []
  | some cats => catEntries c cats

theorem setMgrTable_constants (m : Manager) (t : AssignType)
    (tbl : Dict (Dict CEntry)) : (setMgrTable m t tbl).constants = m.constants := by
  cases t <;> rfl

theorem mgrTable_setMgrTable_self (m : Manager) (t : AssignType)
    (tbl : Dict (Dict CEntry)) : mgrTable (setMgrTable m t tbl) t = tbl := by
  cases t <;> rfl

theorem mgrTable_setMgrTable_other (m : Manager) (t t' : AssignType)
    (tbl : Dict (Dict CEntry)) (h : t' ≠ t) :
    mgrTable (setMgrTable m t tbl) t' = mgrTable m t' := by
  cases t <;> cases t' <;> first | rfl | exact absurd rfl h

theorem applyAssignOne_constants {m m' : Manager} {t : AssignType}
    {f : FileData} (h : applyAssignOne m t f = .ok m') :
    m'.constants = m.constants := by
  cases hft : fileTable f t with
  | none =>
      simp only [applyAssignOne, hft, Except.ok.injEq] at h
      rw [← h]
  | some cats =>
      simp only [applyAssignOne, hft] at h
      cases hpc : processCategories f.path m.constants cats (mgrTable m t) with
      | error er => simp [hpc] at h
      | ok tbl =>
          simp only [hpc, Except.ok.injEq] at h
          rw [← h, setMgrTable_constants]

theorem applyAssignOne_other {m m' : Manager} {t : AssignType} {f : FileData}
    (h : applyAssignOne m t f = .ok m') (t' : AssignType) (ht : t' ≠ t) :
    mgrTable m' t' = mgrTable m t' := by
  cases hft : fileTable f t with
  | none =>
      simp only [applyAssignOne, hft, Except.ok.injEq] at h
      rw [← h]
  | some cats =>
      simp only [applyAssignOne, hft] at h
      cases hpc : processCategories f.path m.constants cats (mgrTable m t) with
      | error er => simp [hpc] at h
      | ok tbl =>
          simp only [hpc, Except.ok.injEq] at h
          rw [← h, mgrTable_setMgrTable_other _ _ _ _ ht]

theorem applyAssignOne_lookup {m m' : Manager} {t : AssignType}
    {f : FileData} (h : applyAssignOne m t f = .ok m') (c k : String) :
    dlookup2 (mgrTable m' t) c k =
      match lastNamed k (fileCatEntries f t c) with
      | some e => some (mkEntryVal f.path e)
      | none => dlookup2 (mgrTable m t) c k := by
  unfold fileCatEntries
  cases hft : fileTable f t with
  | none =>
      simp only [applyAssignOne, hft, Except.ok.injEq] at h
      simp [← h, lastNamed]
  | some cats =>
      simp only [applyAssignOne, hft] at h
      cases hpc : processCategories f.path m.constants cats (mgrTable m t) with
      | error er => simp [hpc] at h
      | ok tbl =>
          simp only [hpc, Except.ok.injEq] at h
          rw [← h, mgrTable_setMgrTable_self]
          exact processCategories_ok_lookup hpc c k

theorem applyAssignOne_ok_all {m m' : Manager} {t : AssignType}
    {f : FileData} (h : applyAssignOne m t f = .ok m') :
    ∀ c, ∀ e ∈ fileCatEntries f t c,
      mkEntry f.path m.constants e = .ok (mkEntryVal f.path e) := by
  intro c e he
  unfold fileCatEntries at he
  cases hft : fileTable f t with
  | none => rw [hft] at he; simp at he
  | some cats =>
      rw [hft] at he
      simp only [applyAssignOne, hft] at h
      cases hpc : processCategories f.path m.constants cats (mgrTable m t) with
      | error er => simp [hpc] at h
      | ok tbl =>
          obtain ⟨es, hp, hee⟩ := catEntries_mem he
          exact processCategories_ok_all hpc c es hp e hee

theorem applyAssignOne_error {m : Manager} {t : AssignType} {f : FileData}
    {er : MgrErr} (h : applyAssignOne m t f = .error er) :
    ∃ c, ∃ e ∈ fileCatEntries f t c,
      mkEntry f.path m.constants e = .error er := by
  cases hft : fileTable f t with
  | none => simp [applyAssignOne, hft] at h
  | some cats =>
      simp only [applyAssignOne, hft] at h
      cases hpc : processCategories f.path m.constants cats (mgrTable m t) with
      | error er0 =>
          simp only [hpc, Except.error.injEq] at h
          obtain ⟨c, es, hp, e, he, hee⟩ := processCategories_error hpc
          refine ⟨c, e, ?_, by rw [hee, h]⟩
          unfold fileCatEntries
          rw [hft]
          exact mem_catEntries hp he
      | ok tbl => simp [hpc] at h

theorem applyAssignOne_ok_of {m : Manager} {t : AssignType} {f : FileData}
    (h : ∀ c, ∀ e ∈ fileCatEntries f t c,
      mkEntry f.path m.constants e = .ok (mkEntryVal f.path e)) :
    ∃ m', applyAssignOne m t f = .ok m' := by
  cases hft : fileTable f t with
  | none => exact ⟨m, by simp [applyAssignOne, hft]⟩
  | some cats =>
      have hall : ∀ c es, (c, es) ∈ cats → ∀ e ∈ es,
          mkEntry f.path m.constants e = .ok (mkEntryVal f.path e) := by
        intro c es hp e he
        apply h c
        unfold fileCatEntries
        rw [hft]
        exact mem_catEntries hp he
      obtain ⟨t', ht'⟩ := processCategories_ok_of hall (mgrTable m t)
      exact ⟨setMgrTable m t t', by simp [applyAssignOne, hft, ht']⟩

theorem buildEntriesFile_parts {m m' : Manager} {f : FileData}
    (h : buildEntriesFile m f = .ok m') :
    ∃ m1 m2, applyAssignOne m .names f = .ok m1 ∧
      applyAssignOne m1 .nodes f = .ok m2 ∧
      applyAssignOne m2 .tools f = .ok m' := by
  cases h1 : applyAssignOne m .names f with
  | error er => simp [buildEntriesFile, h1] at h
  | ok m1 =>
      simp only [buildEntriesFile, h1] at h
      cases h2 : applyAssignOne m1 .nodes f with
      | error er => simp [h2] at h
      | ok m2 =>
          simp only [h2] at h
          exact ⟨m1, m2, rfl, h2, h⟩

theorem buildEntriesFile_constants {m m' : Manager} {f : FileData}
    (h : buildEntriesFile m f = .ok m') : m'.constants = m.constants := by
  obtain ⟨m1, m2, h1, h2, h3⟩ := buildEntriesFile_parts h
  rw [applyAssignOne_constants h3, applyAssignOne_constants h2,
    applyAssignOne_constants h1]

theorem buildEntriesFile_lookup {m m' : Manager} {f : FileData}
    (h : buildEntriesFile m f = .ok m') (t : AssignType) (c k : String) :
    dlookup2 (mgrTable m' t) c k =
      match lastNamed k (fileCatEntries f t c) with
      | some e => some (mkEntryVal f.path e)
      | none => dlookup2 (mgrTable m t) c k := by
  obtain ⟨m1, m2, h1, h2, h3⟩ := buildEntriesFile_parts h
  have hc1 := applyAssignOne_constants h1
  have hc2 := applyAssignOne_constants h2
  cases t with
  | names =>
      rw [applyAssignOne_other h3 .names (by simp),
        applyAssignOne_other h2 .names (by simp)]
      exact applyAssignOne_lookup h1 c k
  | nodes =>
      rw [applyAssignOne_other h3 .nodes (by simp)]
      rw [applyAssignOne_lookup h2 c k,
        applyAssignOne_other h1 .nodes (by simp)]
  | tools =>
      rw [applyAssignOne_lookup h3 c k,
        applyAssignOne_other h2 .tools (by simp),
        applyAssignOne_other h1 .tools (by simp)]

theorem buildEntriesFile_ok_all {m m' : Manager} {f : FileData}
    (h : buildEntriesFile m f = .ok m') :
    ∀ t c, ∀ e ∈ fileCatEntries f t c,
      mkEntry f.path m.constants e = .ok (mkEntryVal f.path e) := by
  obtain ⟨m1, m2, h1, h2, h3⟩ := buildEntriesFile_parts h
  have hc1 := applyAssignOne_constants h1
  have hc2 := applyAssignOne_constants h2
  intro t c e he
  cases t with
  | names => exact applyAssignOne_ok_all h1 c e he
  | nodes => rw [← hc1]; exact applyAssignOne_ok_all h2 c e he
  | tools => rw [← hc1, ← hc2]; exact applyAssignOne_ok_all h3 c e he

theorem buildEntriesFile_error {m : Manager} {f : FileData} {er : MgrErr}
    (h : buildEntriesFile m f = .error er) :
    ∃ t c, ∃ e ∈ fileCatEntries f t c,
      mkEntry f.path m.constants e = .error er := by
  cases h1 : applyAssignOne m .names f with
  | error er0 =>
      simp only [buildEntriesFile, h1, Except.error.injEq] at h
      obtain ⟨c, e, he, hee⟩ := applyAssignOne_error h1
      exact ⟨.names, c, e, he, by rw [hee, h]⟩
  | ok m1 =>
      simp only [buildEntriesFile, h1] at h
      have hc1 := applyAssignOne_constants h1
      cases h2 : applyAssignOne m1 .nodes f with
      | error er0 =>
          simp only [h2, Except.error.injEq] at h
          obtain ⟨c, e, he, hee⟩ := applyAssignOne_error h2
          exact ⟨.nodes, c, e, he, by rw [← hc1, hee, h]⟩
      | ok m2 =>
          simp only [h2] at h
          have hc2 := applyAssignOne_constants h2
          obtain ⟨c, e, he, hee⟩ := applyAssignOne_error h
          exact ⟨.tools, c, e, he, by rw [← hc1, ← hc2]; exact hee⟩

theorem buildEntriesFile_ok_of {m : Manager} {f : FileData}
    (h : ∀ t c, ∀ e ∈ fileCatEntries f t c,
      mkEntry f.path m.constants e = .ok (mkEntryVal f.path e)) :
    ∃ m', buildEntriesFile m f = .ok m' := by
  obtain ⟨m1, h1⟩ := applyAssignOne_ok_of (h .names)
  have hc1 := applyAssignOne_constants h1
  obtain ⟨m2, h2⟩ := applyAssignOne_ok_of (t := .nodes) (f := f)
    (by rw [hc1]; exact h .nodes)
  have hc2 := applyAssignOne_constants h2
  obtain ⟨m3, h3⟩ := applyAssignOne_ok_of (t := .tools) (f := f)
    (by rw [hc2, hc1]; exact h .tools)
  exact ⟨m3, by simp [buildEntriesFile, h1, h2, h3]⟩

/-- The surviving (path, entry) contribution for table `t`, category `c`,
key `k` over a list of files in processing order: the last file that
defines the key wins, with the last entry inside that file. -/
def lastFileEntry (t : AssignType) (c k : String) :
    List FileData → Option (String × EntryData)
  | [] => none
  | f :: rest =>
      match lastFileEntry t c k rest with
      | some x => some x
      | none => (lastNamed k (fileCatEntries f t c)).map (fun e => (f.path, e))

theorem buildEntriesFromData_constants {fs : List FileData} {m m' : Manager}
    (h : buildEntriesFromData fs m = .ok m') : m'.constants = m.constants := by
  induction fs generalizing m with
  | nil =>
      simp only [buildEntriesFromData, Except.ok.injEq] at h
      rw [← h]
  | cons f rest ih =>
      simp only [buildEntriesFromData] at h
      cases h1 : buildEntriesFile m f with
      | error er => simp [h1] at h
      | ok m1 =>
          rw [h1] at h
          rw [ih h, buildEntriesFile_constants h1]

theorem buildEntriesFromData_lookup {fs : List FileData} {m m' : Manager}
    (h : buildEntriesFromData fs m = .ok m') (t : AssignType) (c k : String) :
    dlookup2 (mgrTable m' t) c k =
      match lastFileEntry t c k fs with
      | some pe => some (mkEntryVal pe.1 pe.2)
      | none => dlookup2 (mgrTable m t) c k := by
  induction fs generalizing m with
  | nil =>
      simp only [buildEntriesFromData, Except.ok.injEq] at h
      simp [← h, lastFileEntry]
  | cons f rest ih =>
      simp only [buildEntriesFromData] at h
      cases h1 : buildEntriesFile m f with
      | error er => simp [h1] at h
      | ok m1 =>
          rw [h1] at h
          rw [ih h]
          simp only [lastFileEntry]
          cases hrest : lastFileEntry t c k rest with
          | some x => rfl
          | none =>
              simp only []
              rw [buildEntriesFile_lookup h1 t c k]
              cases hlast : lastNamed k (fileCatEntries f t c) <;> simp

theorem buildEntriesFromData_ok_all {fs : List FileData} {m m' : Manager}
    (h : buildEntriesFromData fs m = .ok m') :
    ∀ f ∈ fs, ∀ t c, ∀ e ∈ fileCatEntries f t c,
      mkEntry f.path m.constants e = .ok (mkEntryVal f.path e) := by
  induction fs generalizing m with
  | nil => intro f hf; simp at hf
  | cons f0 rest ih =>
      intro f hf t c e he
      simp only [buildEntriesFromData] at h
      cases h1 : buildEntriesFile m f0 with
      | error er => simp [h1] at h
      | ok m1 =>
          rw [h1] at h
          rcases List.mem_cons.mp hf with hf0 | hfrest
          · subst hf0
            exact buildEntriesFile_ok_all h1 t c e he
          · rw [← buildEntriesFile_constants h1]
            exact ih h f hfrest t c e he

theorem buildEntriesFromData_error {fs : List FileData} {m : Manager}
    {er : MgrErr} (h : buildEntriesFromData fs m = .error er) :
    ∃ f ∈ fs, ∃ t c, ∃ e ∈ fileCatEntries f t c,
      mkEntry f.path m.constants e = .error er := by
  induction fs generalizing m with
  | nil => simp [buildEntriesFromData] at h
  | cons f0 rest ih =>
      simp only [buildEntriesFromData] at h
      cases h1 : buildEntriesFile m f0 with
      | error er0 =>
          rw [h1] at h
          injection h with h
          obtain ⟨t, c, e, he, hee⟩ := buildEntriesFile_error h1
          exact ⟨f0, by simp, t, c, e, he, by rw [hee, h]⟩
      | ok m1 =>
          rw [h1] at h
          obtain ⟨f, hf, t, c, e, he, hee⟩ := ih h
          rw [buildEntriesFile_constants h1] at hee
          exact ⟨f, List.mem_cons_of_mem _ hf, t, c, e, he, hee⟩

theorem buildEntriesFromData_ok_of {fs : List FileData} {m : Manager}
    (h : ∀ f ∈ fs, ∀ t c, ∀ e ∈ fileCatEntries f t c,
      mkEntry f.path m.constants e = .ok (mkEntryVal f.path e)) :
    ∃ m', buildEntriesFromData fs m = .ok m' := by
  induction fs generalizing m with
  | nil => exact ⟨m, rfl⟩
  | cons f0 rest ih =>
      obtain ⟨m1, h1⟩ := buildEntriesFile_ok_of (h f0 (by simp))
      have hc := buildEntriesFile_constants h1
      obtain ⟨m', hm'⟩ := ih (m := m1)
        (by rw [hc]; exact fun f hf => h f (List.mem_cons_of_mem _ hf))
      exact ⟨m', by simp only [buildEntriesFromData, h1]; exact hm'⟩

/-! ### Constants phase -/

/-- The surviving constant record of one file for name `k`. -/
def lastConstOf (f : FileData) (k : String) : Option ConstData :=
  match f.constants with
  | none => none
  | some cds => lastKeyed k cds

/-- The surviving (path, record) constant contribution over files in
processing order. -/
def lastConstFiles (k : String) : List FileData → Option (String × ConstData)
  | [] => none
  | f :: rest =>
      match lastConstFiles k rest with
      | some x => some x
      | none => (lastConstOf f k).map (fun cd => (f.path, cd))

theorem processConstants_ok_lookup {path : String} {cds : Dict ConstData}
    {cs cs' : Dict ColorConstant}
    (h : processConstants path cds cs = .ok cs') (k : String) :
    dlookup cs' k =
      match lastKeyed k cds with
      | some cd => some ⟨k, colorVal cd.ty cd.color, cd.ty, path⟩
      | none => dlookup cs k := by
  induction cds generalizing cs with
  | nil =>
      simp only [processConstants, Except.ok.injEq] at h
      simp [← h, lastKeyed]
  | cons p rest ih =>
      obtain ⟨name, cd⟩ := p
      simp only [processConstants] at h
      cases hbc : buildColor cd.ty cd.color with
      | error er => simp [hbc] at h
      | ok col =>
          rw [hbc] at h
          rw [ih h]
          simp only [lastKeyed]
          cases hrest : lastKeyed k rest with
          | some x => rfl
          | none =>
              simp only []
              rw [dlookup_dinsert]
              have hcol : col = colorVal cd.ty cd.color := by
                unfold buildColor at hbc
                by_cases hv : cd.ty ∈ validColorTypes
                · simp [hv] at hbc; exact hbc.symm
                · simp [hv] at hbc
              by_cases hn : name = k
              · subst hn
                simp [hcol]
              · simp [hn]

theorem processConstants_error {path : String} {cds : Dict ConstData}
    {cs : Dict ColorConstant} {er : MgrErr}
    (h : processConstants path cds cs = .error er) :
    ∃ ty, er = .invalidColorType ty := by
  induction cds generalizing cs with
  | nil => simp [processConstants] at h
  | cons p rest ih =>
      obtain ⟨name, cd⟩ := p
      simp only [processConstants] at h
      cases hbc : buildColor cd.ty cd.color with
      | error er0 =>
          rw [hbc] at h
          injection h with h
          unfold buildColor at hbc
          by_cases hv : cd.ty ∈ validColorTypes
          · simp [hv] at hbc
          · simp [hv] at hbc
            exact ⟨cd.ty, by rw [← h, ← hbc]⟩
      | ok col => rw [hbc] at h; exact ih h

theorem buildConstantsFile_tables {m m' : Manager} {f : FileData}
    (h : buildConstantsFile m f = .ok m') :
    m'.names = m.names ∧ m'.nodes = m.nodes ∧ m'.tools = m.tools := by
  cases hfc : f.constants with
  | none =>
      simp only [buildConstantsFile, hfc, Except.ok.injEq] at h
      rw [← h]
      exact ⟨rfl, rfl, rfl⟩
  | some cds =>
      simp only [buildConstantsFile, hfc] at h
      cases hpc : processConstants f.path cds m.constants with
      | error er => simp [hpc] at h
      | ok cs =>
          simp only [hpc, Except.ok.injEq] at h
          rw [← h]
          exact ⟨rfl, rfl, rfl⟩

theorem buildConstantsFile_lookup {m m' : Manager} {f : FileData}
    (h : buildConstantsFile m f = .ok m') (k : String) :
    dlookup m'.constants k =
      match lastConstOf f k with
      | some cd => some ⟨k, colorVal cd.ty cd.color, cd.ty, f.path⟩
      | none => dlookup m.constants k := by
  unfold lastConstOf
  cases hfc : f.constants with
  | none =>
      simp only [buildConstantsFile, hfc, Except.ok.injEq] at h
      simp [← h]
  | some cds =>
      simp only [buildConstantsFile, hfc] at h
      cases hpc : processConstants f.path cds m.constants with
      | error er => simp [hpc] at h
      | ok cs =>
          simp only [hpc, Except.ok.injEq] at h
          rw [← h]
          exact processConstants_ok_lookup hpc k

theorem buildConstantsFromData_tables {fs : List FileData} {m m' : Manager}
    (h : buildConstantsFromData fs m = .ok m') :
    m'.names = m.names ∧ m'.nodes = m.nodes ∧ m'.tools = m.tools := by
  induction fs generalizing m with
  | nil =>
      simp only [buildConstantsFromData, Except.ok.injEq] at h
      rw [← h]
      exact ⟨rfl, rfl, rfl⟩
  | cons f rest ih =>
      simp only [buildConstantsFromData] at h
      cases h1 : buildConstantsFile m f with
      | error er => simp [h1] at h
      | ok m1 =>
          rw [h1] at h
          obtain ⟨a1, a2, a3⟩ := buildConstantsFile_tables h1
          obtain ⟨b1, b2, b3⟩ := ih h
          exact ⟨b1.trans a1, b2.trans a2, b3.trans a3⟩

theorem buildConstantsFromData_lookup {fs : List FileData} {m m' : Manager}
    (h : buildConstantsFromData fs m = .ok m') (k : String) :
    dlookup m'.constants k =
      match lastConstFiles k fs with
      | some pc => some ⟨k, colorVal pc.2.ty pc.2.color, pc.2.ty, pc.1⟩
      | none => dlookup m.constants k := by
  induction fs generalizing m with
  | nil =>
      simp only [buildConstantsFromData, Except.ok.injEq] at h
      simp [← h, lastConstFiles]
  | cons f rest ih =>
      simp only [buildConstantsFromData] at h
      cases h1 : buildConstantsFile m f with
      | error er => simp [h1] at h
      | ok m1 =>
          rw [h1] at h
          rw [ih h]
          simp only [lastConstFiles]
          cases hrest : lastConstFiles k rest with
          | some x => rfl
          | none =>
              simp only []
              rw [buildConstantsFile_lookup h1 k]
              cases hlast : lastConstOf f k <;> simp

theorem buildConstantsFromData_error {fs : List FileData} {m : Manager}
    {er : MgrErr} (h : buildConstantsFromData fs m = .error er) :
    ∃ ty, er = .invalidColorType ty := by
  induction fs generalizing m with
  | nil => simp [buildConstantsFromData] at h
  | cons f rest ih =>
      simp only [buildConstantsFromData] at h
      cases h1 : buildConstantsFile m f with
      | error er0 =>
          rw [h1] at h
          injection h with h
          subst h
          cases hfc : f.constants with
          | none => simp [buildConstantsFile, hfc] at h1
          | some cds =>
              simp only [buildConstantsFile, hfc] at h1
              cases hpc : processConstants f.path cds m.constants with
              | error er1 =>
                  rw [hpc] at h1
                  injection h1 with h1
                  subst h1
                  exact processConstants_error hpc
              | ok cs => simp [hpc] at h1
      | ok m1 => rw [h1] at h; exact ih h

instance {ε α : Type} [DecidableEq ε] [DecidableEq α] :
    DecidableEq (Except ε α) := fun x y =>
  match x, y with
  | .ok a, .ok b =>
      if h : a = b then .isTrue (by rw [h])
      else .isFalse (fun hh => h (by injection hh))
  | .error a, .error b =>
      if h : a = b then .isTrue (by rw [h])
      else .isFalse (fun hh => h (by injection hh))
  | .ok _, .error _ => .isFalse (fun hh => Except.noConfusion hh)
  | .error _, .ok _ => .isFalse (fun hh => Except.noConfusion hh)

/-- Total extraction of a successful load result (used only to name the
result of a concrete successful `buildMappings` run). -/
def mgrOf (x : Except MgrErr Manager) : Manager :=
  match x with
  | .ok m => m
  | .error _ => emptyManager

theorem buildMappings_parts {files : List FileData} {m : Manager}
    (h : buildMappings files = .ok m) :
    ∃ mc, buildConstantsFromData files.reverse emptyManager = .ok mc ∧
      buildEntriesFromData files.reverse mc = .ok m := by
  cases hc : buildConstantsFromData files.reverse emptyManager with
  | error er => simp [buildMappings, hc] at h
  | ok mc =>
      simp only [buildMappings, hc] at h
      exact ⟨mc, rfl, h⟩

theorem lastFileEntry_mem {t : AssignType} {c k : String}
    {fs : List FileData} {p : String} {e : EntryData}
    (h : lastFileEntry t c k fs = some (p, e)) :
    ∃ f ∈ fs, f.path = p ∧ e ∈ fileCatEntries f t c ∧ e.name = k := by
  induction fs with
  | nil => simp [lastFileEntry] at h
  | cons f rest ih =>
      simp only [lastFileEntry] at h
      cases hrest : lastFileEntry t c k rest with
      | some x =>
          rw [hrest] at h
          injection h with h
          obtain ⟨f', hf', rest'⟩ := ih (by rw [hrest, h])
          exact ⟨f', List.mem_cons_of_mem _ hf', rest'⟩
      | none =>
          rw [hrest] at h
          cases hlast : lastNamed k (fileCatEntries f t c) with
          | some e0 =>
              rw [hlast] at h
              simp only [Option.map_some'] at h
              injection h with h
              injection h with h1 h2
              obtain ⟨hm, hn⟩ := lastNamed_mem hlast
              exact ⟨f, by simp, h1, h2 ▸ hm, h2 ▸ hn⟩
          | none => rw [hlast] at h; simp at h

theorem constants_phase_tables_empty {fs : List FileData} {mc : Manager}
    (h : buildConstantsFromData fs emptyManager = .ok mc) (t : AssignType) :
    mgrTable mc t = [] := by
  obtain ⟨h1, h2, h3⟩ := buildConstantsFromData_tables h
  cases t
  · exact h1
  · exact h2
  · exact h3

/-- **C1.** For two discovered rule files `R1` (first) and `R2` (second),
the merged tables contain `R1`'s value on every table/category/key that
`R1` defines (first-discovered source wins, both for entries and for
constants), and within a single file the surviving value for a key is the
one built from the *last* entry in the file carrying that key (later
entries overwrite earlier ones). -/
theorem c1_first_discovered_wins (R1 R2 : FileData) (m m1 : Manager)
    (hm : buildMappings [R1, R2] = .ok m)
    (hm1 : buildMappings [R1] = .ok m1) :
    (∀ t c k v, dlookup2 (mgrTable m1 t) c k = some v →
      dlookup2 (mgrTable m t) c k = some v) ∧
    (∀ k v, dlookup m1.constants k = some v →
      dlookup m.constants k = some v) ∧
    (∀ t c k e, lastNamed k (fileCatEntries R1 t c) = some e →
      dlookup2 (mgrTable m1 t) c k = some (mkEntryVal R1.path e)) := by
  obtain ⟨mc, hc, he⟩ := buildMappings_parts hm
  obtain ⟨mc1, hc1, he1⟩ := buildMappings_parts hm1
  have hrev2 : ([R1, R2]).reverse = [R2, R1] := rfl
  have hrev1 : ([R1]).reverse = [R1] := rfl
  rw [hrev2] at hc he
  rw [hrev1] at hc1 he1
  refine ⟨?_, ?_, ?_⟩
  · intro t c k v hv
    have hsingle := buildEntriesFromData_lookup he1 t c k
    have hmerged := buildEntriesFromData_lookup he t c k
    have hempty : dlookup2 (mgrTable mc1 t) c k = none := by
      rw [constants_phase_tables_empty hc1 t]
      rfl
    cases hlf : lastFileEntry t c k [R1] with
    | none =>
        rw [hlf, hempty] at hsingle
        rw [hsingle] at hv
        exact absurd hv (by simp)
    | some pe =>
        rw [hlf] at hsingle
        rw [hsingle] at hv
        have hmap : (lastNamed k (fileCatEntries R1 t c)).map
            (fun e => (R1.path, e)) = some pe := by
          have hh := hlf
          simp only [lastFileEntry] at hh
          exact hh
        have hlf2 : lastFileEntry t c k [R2, R1] = some pe := by
          simp only [lastFileEntry, hmap]
        rw [hlf2] at hmerged
        rw [hmerged]
        exact hv
  · intro k v hv
    have hckeep1 := buildEntriesFromData_constants he1
    have hckeep := buildEntriesFromData_constants he
    have hsingle := buildConstantsFromData_lookup hc1 k
    have hmerged := buildConstantsFromData_lookup hc k
    rw [hckeep1] at hv
    cases hlf : lastConstFiles k [R1] with
    | none =>
        rw [hlf] at hsingle
        rw [hsingle] at hv
        exact absurd hv (by simp [emptyManager])
    | some pc =>
        rw [hlf] at hsingle
        rw [hsingle] at hv
        have hmap : (lastConstOf R1 k).map (fun cd => (R1.path, cd)) =
            some pc := by
          have hh := hlf
          simp only [lastConstFiles] at hh
          exact hh
        have hlf2 : lastConstFiles k [R2, R1] = some pc := by
          simp only [lastConstFiles, hmap]
        rw [hlf2] at hmerged
        rw [hckeep, hmerged]
        exact hv
  · intro t c k e hlast
    have hsingle := buildEntriesFromData_lookup he1 t c k
    have hlf : lastFileEntry t c k [R1] = some (R1.path, e) := by
      simp only [lastFileEntry, hlast]
      rfl
    rw [hlf] at hsingle
    exact hsingle

/-- Concrete rule file discovered first: defines constant `fg` and two
`nodes` entries under `Sop` with the same key `k`. -/
def c1R1 : FileData :=
  ⟨"p1", some [("fg", ⟨"RGB", .num 1⟩)], none,
    some [("Sop", [⟨"k", "RGB", "", .num 2⟩, ⟨"k", "RGB", "", .num 3⟩])],
    none⟩

/-- Concrete rule file discovered second: redefines `fg` and `Sop`/`k`. -/
def c1R2 : FileData :=
  ⟨"p2", some [("fg", ⟨"RGB", .num 5⟩)], none,
    some [("Sop", [⟨"k", "RGB", "", .num 9⟩])], none⟩

/-- Witness for C1: on the two concrete files, the merged `Sop`/`k` entry
and the merged `fg` constant are the first-discovered file's values (and
`k` carries the later of the two entries within that file). -/
theorem c1_first_discovered_wins_witness :
    dlookup2 (mgrTable (mgrOf (buildMappings [c1R1, c1R2])) .nodes) "Sop" "k" =
      some (.color ⟨"k", ⟨"RGB", .arr [3, 3, 3]⟩, "RGB", "p1"⟩) ∧
    dlookup (mgrOf (buildMappings [c1R1, c1R2])).constants "fg" =
      some ⟨"fg", ⟨"RGB", .arr [1, 1, 1]⟩, "RGB", "p1"⟩ := by
  have h := c1_first_discovered_wins c1R1 c1R2
    (mgrOf (buildMappings [c1R1, c1R2])) (mgrOf (buildMappings [c1R1]))
    (by decide) (by decide)
  exact ⟨h.1 .nodes "Sop" "k" _ (by decide), h.2.1 "fg" _ (by decide)⟩

/-- **C2.** `colorNode` resolves in strict order — type-name match first,
then tool/Tab-menu locations, then (only when the node type is a manager
or generator) the literal manager/generator lookup — with the first
success winning; and when no strategy matches, no color is applied and no
error is raised (`.ok none`). -/
theorem c2_colorNode_policy (m : Manager) (pm : PatternMatch) (n : NodeInfo) :
    (∀ c, getTypeColor m pm n = .ok (some c) →
      colorNode m pm n = .ok (some c)) ∧
    (∀ c, getTypeColor m pm n = .ok none →
      getToolColor m pm n = .ok (some c) →
      colorNode m pm n = .ok (some c)) ∧
    (getTypeColor m pm n = .ok none → getToolColor m pm n = .ok none →
      (n.isManager || n.isGenerator) = true →
      colorNode m pm n = getManagerGeneratorColor m n) ∧
    (getTypeColor m pm n = .ok none → getToolColor m pm n = .ok none →
      (n.isManager || n.isGenerator) = false →
      colorNode m pm n = .ok none) ∧
    (getTypeColor m pm n = .ok none → getToolColor m pm n = .ok none →
      getManagerGeneratorColor m n = .ok none →
      colorNode m pm n = .ok none) := by
  refine ⟨?_, ?_, ?_, ?_, ?_⟩
  · intro c h1
    simp [colorNode, h1]
  · intro c h1 h2
    simp [colorNode, h1, h2]
  · intro h1 h2 h3
    simp [colorNode, h1, h2, h3]
  · intro h1 h2 h3
    simp [colorNode, h1, h2, h3]
  · intro h1 h2 h3
    by_cases hmg : (n.isManager || n.isGenerator) = true
    · simp [colorNode, h1, h2, hmg, h3]
    · simp [colorNode, h1, h2, hmg]

/-- Witness for C2: a node of a category with no rules on an empty
manager gets no color and no error through each applicable conjunct. -/
theorem c2_colorNode_policy_witness :
    colorNode emptyManager (fun p s => p = s)
      ⟨"Sop", "box", false, false, ["Create"], "box1"⟩ = .ok none ∧
    colorNode emptyManager (fun p s => p = s)
      ⟨"Sop", "box", true, false, [], "box1"⟩ = .ok none := by
  refine ⟨?_, ?_⟩
  · exact (c2_colorNode_policy emptyManager (fun p s => p = s)
      ⟨"Sop", "box", false, false, ["Create"], "box1"⟩).2.2.2.1
      (by decide) (by decide) (by decide)
  · exact (c2_colorNode_policy emptyManager (fun p s => p = s)
      ⟨"Sop", "box", true, false, [], "box1"⟩).2.2.2.2
      (by decide) (by decide) (by decide)

theorem mkEntryVal_constant {p : String} {e : EntryData} {ce : ConstantEntry}
    (h : mkEntryVal p e = .constant ce) :
    e.ty = "constant" ∧ ce.constant_name = e.constant := by
  unfold mkEntryVal at h
  by_cases hc : e.ty = "constant"
  · rw [if_pos hc] at h
    injection h with h
    exact ⟨hc, by rw [← h]⟩
  · rw [if_neg hc] at h
    exact absurd h (by simp)

theorem mkEntry_ok_constant {path : String} {consts : Dict ColorConstant}
    {e : EntryData} {v : CEntry} (h : mkEntry path consts e = .ok v)
    (hc : e.ty = "constant") : (dlookup consts e.constant).isSome := by
  unfold mkEntry at h
  rw [if_pos hc] at h
  by_cases hs : (dlookup consts e.constant).isSome
  · exact hs
  · rw [if_neg hs] at h
    exact absurd h (by simp)

/-- **C3.** A `ConstantEntry` stored anywhere in the merged tables is
resolved through the constants table at query time: after a successful
load, the referenced constant is present in the final merged constants
table and `_resolveEntry` returns that constant's color; moreover
resolution depends only on the current constants table (not on anything
recorded when the entry was registered). -/
theorem c3_constant_resolved_at_query_time (fs : List FileData) (m : Manager)
    (t : AssignType) (c k : String) (ce : ConstantEntry)
    (hm : buildMappings fs = .ok m)
    (he : dlookup2 (mgrTable m t) c k = some (.constant ce)) :
    (∃ konst, dlookup m.constants ce.constant_name = some konst ∧
      resolveEntry m (.constant ce) = .ok konst.color) ∧
    (∀ m2 : Manager, m2.constants = m.constants →
      resolveEntry m2 (.constant ce) = resolveEntry m (.constant ce)) := by
  constructor
  · obtain ⟨mc, hc, hent⟩ := buildMappings_parts hm
    have hckeep := buildEntriesFromData_constants hent
    have hchar := buildEntriesFromData_lookup hent t c k
    rw [he] at hchar
    cases hlf : lastFileEntry t c k fs.reverse with
    | none =>
        rw [hlf] at hchar
        rw [constants_phase_tables_empty hc t] at hchar
        exact absurd hchar.symm (by simp [dlookup2])
    | some pe =>
        rw [hlf] at hchar
        obtain ⟨f, hf, hp, hmem, _⟩ := lastFileEntry_mem hlf
        have hok := buildEntriesFromData_ok_all hent f hf t c pe.2 hmem
        have hval : mkEntryVal pe.1 pe.2 = .constant ce := by
          injection hchar with hchar
          exact hchar.symm
        rw [← hp] at hval
        obtain ⟨hty, hname⟩ := mkEntryVal_constant hval
        have hsome := mkEntry_ok_constant hok hty
        rw [← hckeep] at hsome
        cases hlook : dlookup m.constants pe.2.constant with
        | none => rw [hlook] at hsome; exact absurd hsome (by simp)
        | some konst =>
            refine ⟨konst, by rw [hname]; exact hlook, ?_⟩
            simp only [resolveEntry]
            rw [hname, hlook]
  · intro m2 h2
    simp only [resolveEntry]
    rw [h2]

/-- Concrete files for the C3 witness: the second-discovered file defines
constant `fg` and an entry referencing it; the first-discovered file
redefines `fg`, so the entry must resolve to the first file's (merge
winner) color. -/
def c3R1 : FileData :=
  ⟨"q1", some [("fg", ⟨"RGB", .num 7⟩)], none, none, none⟩

/-- Second file of the C3 witness scenario. -/
def c3R2 : FileData :=
  ⟨"q2", some [("fg", ⟨"RGB", .num 2⟩)], none,
    some [("Sop", [⟨"geo*", "constant", "fg", .num 0⟩])], none⟩

/-- Witness for C3: the stored `ConstantEntry` resolves to the final
merged value of `fg` (the first-discovered file's grey 7), not the value
`fg` had in the file that registered the entry. -/
theorem c3_constant_resolved_at_query_time_witness :
    resolveEntry (mgrOf (buildMappings [c3R1, c3R2]))
      (.constant ⟨"geo*", "fg", "q2"⟩) =
      .ok ⟨"RGB", .arr [7, 7, 7]⟩ := by
  have h := c3_constant_resolved_at_query_time [c3R1, c3R2]
    (mgrOf (buildMappings [c3R1, c3R2])) .nodes "Sop" "geo*"
    ⟨"geo*", "fg", "q2"⟩ (by decide) (by decide)
  obtain ⟨⟨konst, hk, hr⟩, _⟩ := h
  have hkv : konst = ⟨"fg", ⟨"RGB", .arr [7, 7, 7]⟩, "RGB", "q1"⟩ := by
    have : dlookup (mgrOf (buildMappings [c3R1, c3R2])).constants "fg" =
        some ⟨"fg", ⟨"RGB", .arr [7, 7, 7]⟩, "RGB", "q1"⟩ := by decide
    rw [this] at hk
    injection hk with hk
    exact hk.symm
  rw [hr, hkv]

/-- All raw entries of one optional file section. -/
def tblEntries : Option (Dict (List EntryData)) → List EntryData
  | none => []
  | some cats => (cats.map Prod.snd).flatten

/-- All raw entries of one file across the three entry sections. -/
def fileEntries (f : FileData) : List EntryData :=
  tblEntries f.names ++ tblEntries f.nodes ++ tblEntries f.tools

theorem mem_fileEntries_of_cat {f : FileData} {t : AssignType} {c : String}
    {e : EntryData} (h : e ∈ fileCatEntries f t c) : e ∈ fileEntries f := by
  unfold fileCatEntries at h
  have hmem : e ∈ tblEntries (fileTable f t) := by
    cases hft : fileTable f t with
    | none => rw [hft] at h; simp at h
    | some cats =>
        rw [hft] at h
        obtain ⟨es, hp, hee⟩ := catEntries_mem h
        unfold tblEntries
        exact List.mem_flatten.mpr ⟨es, List.mem_map.mpr ⟨(c, es), hp, rfl⟩, hee⟩
  unfold fileEntries
  cases t with
  | names => exact List.mem_append_left _ (List.mem_append_left _ hmem)
  | nodes => exact List.mem_append_left _ (List.mem_append_right _ hmem)
  | tools => exact List.mem_append_right _ hmem

theorem fileEntries_decomp {f : FileData} {e : EntryData}
    (h : e ∈ fileEntries f) : ∃ t c, e ∈ fileCatEntries f t c := by
  have key : ∀ (o : Option (Dict (List EntryData))) (t : AssignType),
      fileTable f t = o → e ∈ tblEntries o → ∃ t c, e ∈ fileCatEntries f t c := by
    intro o t hft hmem
    cases o with
    | none => simp [tblEntries] at hmem
    | some cats =>
        obtain ⟨xs, hxs, hex⟩ := List.mem_flatten.mp hmem
        obtain ⟨⟨c, es⟩, hces, heq⟩ := List.mem_map.mp hxs
        refine ⟨t, c, ?_⟩
        unfold fileCatEntries
        rw [hft]
        apply mem_catEntries hces
        rw [show es = xs from heq]
        exact hex
  unfold fileEntries at h
  rcases List.mem_append.mp h with h1 | h3
  · rcases List.mem_append.mp h1 with ha | hb
    · exact key f.names .names rfl ha
    · exact key f.nodes .nodes rfl hb
  · exact key f.tools .tools rfl h3

/-- Every non-`"constant"` entry names a valid color type (no
`InvalidColorTypeError` can arise from the entry sections). -/
def entryTypesValid (fs : List FileData) : Bool :=
  fs.all fun f => (fileEntries f).all fun e =>
    e.ty == "constant" || validColorTypes.contains e.ty

/-- Every `"constant"`-typed entry references a name present in the given
constants table. -/
def danglingFree (fs : List FileData) (consts : Dict ColorConstant) : Bool :=
  fs.all fun f => (fileEntries f).all fun e =>
    e.ty != "constant" || (dlookup consts e.constant).isSome

theorem entryTypesValid_spec {fs : List FileData}
    (h : entryTypesValid fs = true) :
    ∀ f ∈ fs, ∀ e ∈ fileEntries f, e.ty ≠ "constant" →
      e.ty ∈ validColorTypes := by
  intro f hf e he hne
  have h1 := (List.all_eq_true.mp h) f hf
  have h2 := (List.all_eq_true.mp h1) e he
  simp only [Bool.or_eq_true, beq_iff_eq] at h2
  rcases h2 with h2 | h2
  · exact absurd h2 hne
  · simpa using h2

theorem danglingFree_spec_true {fs : List FileData}
    {consts : Dict ColorConstant} (h : danglingFree fs consts = true) :
    ∀ f ∈ fs, ∀ e ∈ fileEntries f, e.ty = "constant" →
      (dlookup consts e.constant).isSome := by
  intro f hf e he hty
  have h1 := (List.all_eq_true.mp h) f hf
  have h2 := (List.all_eq_true.mp h1) e he
  simp only [Bool.or_eq_true, bne_iff_ne, ne_eq] at h2
  rcases h2 with h2 | h2
  · exact absurd hty h2
  · exact h2

theorem danglingFree_spec_false {fs : List FileData}
    {consts : Dict ColorConstant} (h : danglingFree fs consts = false) :
    ∃ f ∈ fs, ∃ e ∈ fileEntries f, e.ty = "constant" ∧
      dlookup consts e.constant = none := by
  unfold danglingFree at h
  rcases List.all_eq_false.mp h with ⟨f, hf, hfall⟩
  rcases List.all_eq_false.mp (Bool.of_not_eq_true hfall) with ⟨e, he, heb⟩
  refine ⟨f, hf, e, he, ?_⟩
  have heb' := Bool.of_not_eq_true heb
  simp only [Bool.or_eq_false_iff, bne_eq_false_iff_eq] at heb'
  refine ⟨heb'.1, ?_⟩
  have h2 := heb'.2
  cases hl : dlookup consts e.constant with
  | none => rfl
  | some x => rw [hl] at h2; simp at h2

/-- **C9.** During load, all constants (of all files) are registered
before any entry is processed, and a `"constant"`-typed entry fails the
load with `ConstantDoesNotExistError` naming the missing constant exactly
when the referenced name is absent from the constants table at that point
(the fully built constants table): (a) a `ConstantDoesNotExistError` from
load always names a constant absent from the built table that some entry
references; (b) if no entry dangles (and colors are well-typed), load
succeeds; (c) if some entry dangles, load fails with
`ConstantDoesNotExistError` naming a missing constant — never a silent
no-match. -/
theorem c9_constant_check_at_load (fs : List FileData) (mc : Manager)
    (hc : buildConstantsFromData fs.reverse emptyManager = .ok mc)
    (hv : entryTypesValid fs = true) :
    (∀ cn, buildMappings fs = .error (.constantDoesNotExist cn) →
      dlookup mc.constants cn = none ∧
      ∃ f ∈ fs, ∃ e ∈ fileEntries f, e.ty = "constant" ∧ e.constant = cn) ∧
    (danglingFree fs mc.constants = true →
      ∃ m, buildMappings fs = .ok m) ∧
    (danglingFree fs mc.constants = false →
      ∃ cn, buildMappings fs = .error (.constantDoesNotExist cn) ∧
        dlookup mc.constants cn = none) := by
  have hbm : buildMappings fs = buildEntriesFromData fs.reverse mc := by
    simp [buildMappings, hc]
  refine ⟨?_, ?_, ?_⟩
  · intro cn h
    rw [hbm] at h
    obtain ⟨f, hf, t, c, e, he, hee⟩ := buildEntriesFromData_error h
    rcases mkEntry_error hee with ⟨hty, her, hlook⟩ | ⟨_, her, _⟩
    · injection her with her
      refine ⟨her ▸ hlook, f, List.mem_reverse.mp hf, e,
        mem_fileEntries_of_cat he, hty, her.symm⟩
    · exact absurd her (by simp)
  · intro hd
    rw [hbm]
    apply buildEntriesFromData_ok_of
    intro f hf t c e he
    apply mkEntry_ok_of
    · intro hty
      exact danglingFree_spec_true hd f (List.mem_reverse.mp hf) e
        (mem_fileEntries_of_cat he) hty
    · intro hty
      exact entryTypesValid_spec hv f (List.mem_reverse.mp hf) e
        (mem_fileEntries_of_cat he) hty
  · intro hd
    obtain ⟨f, hf, e, he, hty, hlook⟩ := danglingFree_spec_false hd
    cases hr : buildMappings fs with
    | ok m =>
        exfalso
        rw [hbm] at hr
        obtain ⟨t, c, hcat⟩ := fileEntries_decomp he
        have hok := buildEntriesFromData_ok_all hr f
          (List.mem_reverse.mpr hf) t c e hcat
        rw [mkEntry] at hok
        rw [if_pos hty, hlook] at hok
        exact absurd hok (by simp)
    | error er =>
        rw [hbm] at hr
        obtain ⟨f', hf', t', c', e', he', hee'⟩ := buildEntriesFromData_error hr
        rcases mkEntry_error hee' with ⟨hty', her', hlook'⟩ | ⟨hty', her', hvv'⟩
        · refine ⟨e'.constant, ?_, hlook'⟩
          rw [her']
        · exact absurd (entryTypesValid_spec hv f' (List.mem_reverse.mp hf')
            e' (mem_fileEntries_of_cat he') hty') hvv'

/-- Concrete file whose only entry references a constant that no file
defines. -/
def c9F : FileData :=
  ⟨"e1", none, none, some [("Sop", [⟨"k", "constant", "zzz", .num 0⟩])], none⟩

/-- Concrete file whose entry references a constant the same file
defines. -/
def c9G : FileData :=
  ⟨"e2", some [("ok", ⟨"RGB", .num 1⟩)], none,
    some [("Sop", [⟨"k", "constant", "ok", .num 0⟩])], none⟩

/-- Witness for C9: the dangling file makes load fail with the error
naming `zzz`, which is absent from the built constants table; the
well-referenced file loads successfully. -/
theorem c9_constant_check_at_load_witness :
    dlookup (mgrOf (buildConstantsFromData ([c9F].reverse)
      emptyManager)).constants "zzz" = none ∧
    buildMappings [c9G] = .ok (mgrOf (buildMappings [c9G])) := by
  constructor
  · exact ((c9_constant_check_at_load [c9F]
      (mgrOf (buildConstantsFromData ([c9F].reverse) emptyManager))
      (by decide) (by decide)).1 "zzz" (by decide)).1
  · have h := (c9_constant_check_at_load [c9G]
      (mgrOf (buildConstantsFromData ([c9G].reverse) emptyManager))
      (by decide) (by decide)).2.1 (by decide)
    obtain ⟨m, hm⟩ := h
    rw [hm]
    rfl

/-! ## AOV data model (`ht/sohohooks/aovs/aov.py`) -/

/-- A Python value stored in AOV data: `None`, a string, an integer, a
boolean, or a list of strings (the only list-valued field is
`components`). -/
inductive AValue : Type
  | null
  | str (s : String)
  | int (n : Int)
  | bool (b : Bool)
  | strList (xs : List String)
  deriving DecidableEq, Repr

/-- Python truthiness of a stored value. -/
def AValue.truthy : AValue → Bool
  | .null => false
  | .str s => s ≠ ""
  | .int n => n ≠ 0
  | .bool b => b
  | .strList xs => xs ≠ []

/-- `str()` of a stored value as used by `"{}".format(...)`.  In every
call site the formatted value is a string (the channel); the other cases
are deterministic placeholders. -/
def AValue.fmt : AValue → String
  | .null => "None"
  | .str s => s
  | .int n => toString n
  | .bool b => if b then "True" else "False"
  | .strList xs => String.intercalate " " xs

/-- `ALLOWABLE_VALUES`: the restricted-enum table keyed by setting name.
Note the key `"quantization"`, while the stored data field is named
`"quantize"`. -/
def ALLOWABLE_VALUES : Dict (List String) :=
  [("lightexport", ["per-category", "per-light", "single"]),
   ("quantization", ["8", "16", "half", "float"]),
   ("vextype", ["float", "unitvector", "vector", "vector4"])]

/-- Python membership `value in allowable` for a tuple of strings: only a
string equal to one of them is a member. -/
def enumMember (v : AValue) (allowable : List String) : Bool :=
  match v with
  | .str s => allowable.contains s
  | _ => false

/-- The fixed field set of `_DEFAULT_AOV_DATA` (an AOV`s `_data` dict). -/
structure AOVData where
  «variable» : AValue
  vextype : AValue
  channel : AValue
  componentexport : AValue
  components : AValue
  comment : AValue
  intrinsic : AValue
  lightexport : AValue
  lightexport_scope : AValue
  lightexport_select : AValue
  path : AValue
  pfilter : AValue
  planefile : AValue
  priority : AValue
  quantize : AValue
  sfilter : AValue
  deriving DecidableEq, Repr

/-- `_DEFAULT_AOV_DATA`. -/
def defaultAOVData : AOVData :=
  ⟨.null, .null, .null, .null, .strList [], .str "", .null, .null,
   .str "*", .str "*", .null, .null, .null, .int (-1), .null, .null⟩

/-- The keys of `_DEFAULT_AOV_DATA` (`name in self._data`). -/
def dataFieldNames : List String :=
  ["variable", "vextype", "channel", "componentexport", "components",
   "comment", "intrinsic", "lightexport", "lightexport_scope",
   "lightexport_select", "path", "pfilter", "planefile", "priority",
   "quantize", "sfilter"]

/-- `self._data[name] = value` for a known field; unknown names leave the
record unchanged (`if name in self._data`). -/
def setField (d : AOVData) (name : String) (v : AValue) : AOVData :=
  if name = "variable" then { d with «variable» := v }
  else if name = "vextype" then { d with vextype := v }
  else if name = "channel" then { d with channel := v }
  else if name = "componentexport" then { d with componentexport := v }
  else if name = "components" then { d with components := v }
  else if name = "comment" then { d with comment := v }
  else if name = "intrinsic" then { d with intrinsic := v }
  else if name = "lightexport" then { d with lightexport := v }
  else if name = "lightexport_scope" then { d with lightexport_scope := v }
  else if name = "lightexport_select" then { d with lightexport_select := v }
  else if name = "path" then { d with path := v }
  else if name = "pfilter" then { d with pfilter := v }
  else if name = "planefile" then { d with planefile := v }
  else if name = "priority" then { d with priority := v }
  else if name = "quantize" then { d with quantize := v }
  else if name = "sfilter" then { d with sfilter := v }
  else d

/-- Pure field-update fold over an input mapping (no validation). -/
def applyData : AOVData → List (String × AValue) → AOVData
  | d, [] => d
  | d, (k, v) :: rest => applyData (setField d k v) rest

/-- Errors raised by AOV construction. -/
inductive AOVError : Type
  | invalidAOVValue (name : String) (value : AValue) (allowable : List String)
  | missingVariable
  | missingVexType («variable» : AValue)
  deriving DecidableEq, Repr

/-- `AOV._updateData` without the final verification: iterate the input
items in order; a name present in `ALLOWABLE_VALUES` must carry an
in-enum value or `InvalidAOVValueError` is raised; names present in
`_data` are stored. -/
def updateData : AOVData → List (String × AValue) → Except AOVError AOVData
  | d, [] => .ok d
  | d, (name, v) :: rest =>
      match dlookup ALLOWABLE_VALUES name with
      | some allowable =>
          if enumMember v allowable then updateData (setField d name v) rest
          else .error (.invalidAOVValue name v allowable)
      | none => updateData (setField d name v) rest

/-- `AOV._verifyInternalData`: `variable` then `vextype` must be set. -/
def verifyInternalData (d : AOVData) : Except AOVError AOVData :=
  if d.«variable» = .null then .error .missingVariable
  else if d.vextype = .null then .error (.missingVexType d.«variable»)
  else .ok d

/-- `AOV.__init__`: copy the defaults, update with the input mapping,
verify. -/
def mkAOV (data : List (String × AValue)) : Except AOVError AOVData :=
  match updateData defaultAOVData data with
  | .error er => .error er
  | .ok d => verifyInternalData d

/-- Whether one input item passes the restricted-enum check. -/
def enumOk (name : String) (v : AValue) : Bool :=
  match dlookup ALLOWABLE_VALUES name with
  | none => true
  | some allowable => enumMember v allowable

/-- The first input item failing its restricted-enum check. -/
def firstEnumViolation : List (String × AValue) → Option (String × AValue)
  | [] => none
  | (k, v) :: rest =>
      if enumOk k v then firstEnumViolation rest else some (k, v)

/-- `AOV.getData`: the projection dictionary representing the AOV. -/
def getData (a : AOVData) : Dict AValue :=
  [("variable", a.«variable»), ("vextype", a.vextype)]
  ++ (if a.channel.truthy then [("channel", a.channel)] else [])
  ++ (if a.quantize ≠ .null then [("quantize", a.quantize)] else [])
  ++ (if a.sfilter ≠ .null then [("sfilter", a.sfilter)] else [])
  ++ (if a.pfilter ≠ .null then [("pfilter", a.pfilter)] else [])
  ++ (if a.componentexport ≠ .null then
        ("componentexport", a.componentexport) ::
          (if a.components.truthy then [("components", a.components)] else [])
      else [])
  ++ (if a.lightexport ≠ .null then
        ("lightexport", a.lightexport) ::
          (if a.lightexport ≠ .str "per-category" then
            [("lightexport_scope", a.lightexport_scope),
             ("lightexport_select", a.lightexport_select)]
          else [])
      else [])
  ++ (if a.intrinsic.truthy then [("intrinsic", a.intrinsic)] else [])
  ++ (if a.comment.truthy then [("comment", a.comment)] else [])
  ++ (if a.priority ≠ .int (-1) then [("priority", a.priority)] else [])

/-- `AOVGroup` state: the member list, the independently stored
`_includes` list, and the metadata fields. -/
structure AOVGroup where
  aovs : List AOVData
  comment : String
  icon : Option String
  includes : List AValue
  name : String
  path : Option String
  priority : Int
  deriving DecidableEq, Repr

/-- `AOVGroup.__init__(name)`. -/
def mkGroup (name : String) : AOVGroup :=
  ⟨[], "", none, [], name, none, -1⟩

/-- Member addition as performed by callers through the exposed mutable
list (`group.aovs.append(aov)`); the class itself offers no add method. -/
def addAOV (g : AOVGroup) (a : AOVData) : AOVGroup :=
  { g with aovs := g.aovs ++ [a] }

/-- `AOVGroup.clear`: replaces the member list with a fresh empty list
(and touches nothing else). -/
def clearGroup (g : AOVGroup) : AOVGroup :=
  { g with aovs := [] }

/-- The inner dictionary of `AOVGroup.getData` under the group name. -/
structure GroupProj where
  «include» : List AValue
  comment : Option String
  priority : Option Int
  deriving DecidableEq, Repr

/-- `AOVGroup.getData`: `{name: {"include": [aov.variable ...], ...}}`. -/
def groupGetData (g : AOVGroup) : String × GroupProj :=
  (g.name,
    { «include» := g.aovs.map (·.«variable»),
      comment := if g.comment ≠ "" then some g.comment else none,
      priority := if g.priority ≠ -1 then some g.priority else none })

/-! ## The IFD sink and `writeDataToIfd` -/

/-- A call to the render-output sink (`IFDapi`). -/
inductive IFDOp : Type
  | rayStart (s : String)
  | rayProperty (plane nm : String) (vals : List AValue)
  | rayEnd
  deriving DecidableEq, Repr

/-- The data dictionary passed to `writeDataToIfd` (a Python dict). -/
abbrev PlaneDict := Dict AValue

/-- `data[k]` where the caller guarantees presence (`variable`,
`vextype`, `channel` are always present in the flows that reach the
lookups), and `data.get(k)` for the hook arguments. -/
def dget (d : PlaneDict) (k : String) : AValue :=
  (dlookup d k).getD .null

/-- A host `IFDhooks.call` predicate: it receives the variable, vextype,
`data.get("planefile")` and `data.get("lightexport")` (the wrangler,
camera and time arguments are host state abstracted away) and returns the
cancel signal. -/
abbrev HookFn := AValue → AValue → AValue → AValue → Bool

/-- `_callPreDefPlane` / `_callPostDefPlane` argument marshalling. -/
def callDefPlaneHook (hfn : HookFn) (d : PlaneDict) : Bool :=
  hfn (dget d "variable") (dget d "vextype")
    (dget d "planefile") (dget d "lightexport")

/-- `AOV.writeDataToIfd`: the pre hook may cancel everything; then the
plane block is opened and the properties written in fixed order
(`variable`, `vextype`, `channel`, then `quantize`, `planefile` (only if
non-null), `lightexport`, `pfilter`, `sfilter`, `component`, each only if
present in the dict); a truthy post hook returns before `ray_end`. -/
def writeDataToIfd (pre post : HookFn) (data : PlaneDict) : List IFDOp :=
  if callDefPlaneHook pre data then []
  else
    let ops :=
      [IFDOp.rayStart "plane",
       IFDOp.rayProperty "plane" "variable" [dget data "variable"],
       IFDOp.rayProperty "plane" "vextype" [dget data "vextype"],
       IFDOp.rayProperty "plane" "channel" [dget data "channel"]]
      ++ (if (dlookup data "quantize").isSome then
            [IFDOp.rayProperty "plane" "quantize" [dget data "quantize"]]
          else [])
      ++ (match dlookup data "planefile" with
          | some pf =>
              if pf ≠ .null then [IFDOp.rayProperty "plane" "planefile" [pf]]
              else []
          | none => [])
      ++ (if (dlookup data "lightexport").isSome then
            [IFDOp.rayProperty "plane" "lightexport" [dget data "lightexport"]]
          else [])
      ++ (if (dlookup data "pfilter").isSome then
            [IFDOp.rayProperty "plane" "pfilter" [dget data "pfilter"]]
          else [])
      ++ (if (dlookup data "sfilter").isSome then
            [IFDOp.rayProperty "plane" "sfilter" [dget data "sfilter"]]
          else [])
      ++ (if (dlookup data "component").isSome then
            [IFDOp.rayProperty "plane" "component" [dget data "component"]]
          else [])
    if callDefPlaneHook post data then ops else ops ++ [IFDOp.rayEnd]

/-! ## Light export fan-out (`AOV._lightExportPlanes`) -/

/-- A host light object as read by `_lightExportPlanes`: its name, the
`vm_export_suffix` string (`getDefaultedString` with default `""`), the
optional `vm_export_prefix` (`evalString` fills a list only when the
parameter exists) and the optional raw `categories` string. -/
structure Light where
  name : String
  exportSuffix : String
  exportPre : Option String
  categories : Option String
  deriving DecidableEq, Repr

/-- `categories.replace(',', ' ')` at character level (the built-in
`String.replace` does not reduce in the kernel). -/
def commaToSpace (s : String) : String :=
  ⟨s.data.map fun c => if c = ',' then ' ' else c⟩

/-- Helper for `pySplit`: split a character list on whitespace runs. -/
def splitWsAux : List Char → List Char → List (List Char)
  | [], acc => if acc = [] then [] else [acc.reverse]
  | c :: rest, acc =>
      if c.isWhitespace then
        if acc = [] then splitWsAux rest []
        else acc.reverse :: splitWsAux rest []
      else splitWsAux rest (c :: acc)

/-- Python `str.split()`: split on whitespace runs, dropping empties. -/
def pySplit (s : String) : List String :=
  (splitWsAux s.data []).map String.mk

/-- `category_map.setdefault(key, []).append(light)`. -/
def mapAppend : List (String × List Light) → String → Light →
    List (String × List Light)
  | [], k, l => [(k, [l])]
  | (k', ls) :: rest, k, l =>
      if k' = k then (k', ls ++ [l]) :: rest
      else (k', ls) :: mapAppend rest k l

/-- One light of the per-category partitioning loop: a light without a
`categories` parameter is skipped (`continue`); one whose value splits to
nothing goes into the `"__none__"` bucket; otherwise it is appended under
each of its categories. -/
def catStep (m : List (String × List Light)) (l : Light) :
    List (String × List Light) :=
  match l.categories with
  | none => m
  | some s =>
      let cs := pySplit (commaToSpace s)
      if cs = [] then mapAppend m "__none__" l
      else cs.foldl (fun m c => mapAppend m c l) m

/-- The per-category partition of the matched lights. -/
def categoryMap (lights : List Light) : List (String × List Light) :=
  lights.foldl catStep []

/-- The per-light loop: compute the per-light channel from prefix/suffix,
store channel and light name into the (shared, mutated) data dict, and
write one block per light.  (The empty-prefix/suffix `soho.error` branch
is kept; with the host semantics modelled the prefix list is never
empty.) -/
def perLightOps (pre post : HookFn) (baseS : String) :
    List Light → PlaneDict → List IFDOp
  | [], _ => []
  | l :: rest, data =>
      let suffix := l.exportSuffix
      let pfx : List String :=
        match l.exportPre with
        | some v => [v]
        | none => [(l.name.drop 1).replace "/" "_"]
      let channel :=
        match pfx with
        | p :: _ => p ++ "_" ++ baseS ++ suffix
        | [] => if suffix ≠ "" then baseS ++ suffix else baseS
      let data' := dinsert (dinsert data "channel" (.str channel))
        "lightexport" (.str l.name)
      writeDataToIfd pre post data' ++ perLightOps pre post baseS rest data'

/-- The per-category loop: for each bucket, store the joined light names
and the prefixed channel into the (shared, mutated) data dict and write
one block per category. -/
def perCatOps (pre post : HookFn) (baseS : String) :
    List (String × List Light) → PlaneDict → List IFDOp
  | [], _ => []
  | (cat, ls) :: rest, data =>
      let data' := dinsert (dinsert data "lightexport"
        (.str (String.intercalate " " (ls.map Light.name)))) "channel"
        (.str (cat ++ "_" ++ baseS))
      writeDataToIfd pre post data' ++ perCatOps pre post baseS rest data'

/-- `AOV._lightExportPlanes`: dispatch on the AOV's `lightexport` mode.
The host `cam.objectList(...)` result is passed in as `lights`. -/
def lightExportPlanes (pre post : HookFn) (aov : AOVData)
    (lights : List Light) (data : PlaneDict) : List IFDOp :=
  let baseChannel := dget data "channel"
  if aov.lightexport ≠ .null then
    if aov.lightexport = .str "per-light" then
      perLightOps pre post baseChannel.fmt lights data
    else if aov.lightexport = .str "single" then
      let lightexport := String.intercalate " " (lights.map Light.name)
      let lightexport := if lightexport = "" then "__nolights__"
        else lightexport
      writeDataToIfd pre post (dinsert data "lightexport" (.str lightexport))
    else if aov.lightexport = .str "per-category" then
      perCatOps pre post baseChannel.fmt (categoryMap lights) data
    else []
  else
    writeDataToIfd pre post data

/-! ## AOV construction claims -/

theorem updateData_spec (input : List (String × AValue)) :
    ∀ d, updateData d input =
      match firstEnumViolation input with
      | some nv => .error (.invalidAOVValue nv.1 nv.2
          ((dlookup ALLOWABLE_VALUES nv.1).getD []))
      | none => .ok (applyData d input) := by
  induction input with
  | nil => intro d; rfl
  | cons p rest ih =>
      intro d
      obtain ⟨k, v⟩ := p
      by_cases he : enumOk k v
      · have hstep : updateData d ((k, v) :: rest) =
            updateData (setField d k v) rest := by
          have he0 := he
          unfold enumOk at he0
          cases hl : dlookup ALLOWABLE_VALUES k with
          | none => simp only [updateData, hl]
          | some a =>
              rw [hl] at he0
              have he2 : enumMember v a = true := he0
              simp only [updateData, hl, he2, if_true]
        have hfv : firstEnumViolation ((k, v) :: rest) =
            firstEnumViolation rest := by
          simp only [firstEnumViolation, he, if_true]
        rw [hstep, ih, hfv]
        rfl
      · have he' : enumOk k v = false := by
          cases hb : enumOk k v
          · rfl
          · exact absurd hb he
        have ha : ∃ a, dlookup ALLOWABLE_VALUES k = some a ∧
            enumMember v a = false := by
          unfold enumOk at he'
          cases hl : dlookup ALLOWABLE_VALUES k with
          | none => rw [hl] at he'; simp at he'
          | some a =>
              rw [hl] at he'
              exact ⟨a, rfl, he'⟩
        obtain ⟨a, hl, hm⟩ := ha
        have hstep : updateData d ((k, v) :: rest) =
            .error (.invalidAOVValue k v a) := by
          simp only [updateData, hl, hm, Bool.false_eq_true, if_false]
        have hfv : firstEnumViolation ((k, v) :: rest) = some (k, v) := by
          simp only [firstEnumViolation, he', Bool.false_eq_true, if_false]
        rw [hstep, hfv]
        simp only [hl, Option.getD_some]

theorem mkAOV_spec (input : List (String × AValue)) :
    mkAOV input =
      match firstEnumViolation input with
      | some nv => .error (.invalidAOVValue nv.1 nv.2
          ((dlookup ALLOWABLE_VALUES nv.1).getD []))
      | none =>
          if (applyData defaultAOVData input).«variable» = .null then
            .error .missingVariable
          else if (applyData defaultAOVData input).vextype = .null then
            .error (.missingVexType (applyData defaultAOVData input).«variable»)
          else .ok (applyData defaultAOVData input) := by
  unfold mkAOV
  rw [updateData_spec input defaultAOVData]
  cases hv : firstEnumViolation input with
  | some nv => rfl
  | none =>
      simp only []
      unfold verifyInternalData
      rfl

theorem firstEnumViolation_of_mem {input : List (String × AValue)}
    {k : String} {v : AValue} (hm : (k, v) ∈ input)
    (hv : enumOk k v = false) :
    ∃ nv, firstEnumViolation input = some nv := by
  induction input with
  | nil => simp at hm
  | cons p rest ih =>
      obtain ⟨k', v'⟩ := p
      simp only [firstEnumViolation]
      by_cases h0 : enumOk k' v'
      · rw [if_pos h0]
        rcases List.mem_cons.mp hm with h1 | h1
        · injection h1 with ha hb
          subst ha
          subst hb
          rw [h0] at hv
          exact absurd hv (by simp)
        · exact ih h1
      · rw [if_neg h0]
        exact ⟨(k', v'), rfl⟩

/-- **C4 (code evaluation).** The `quantize` field is *not* validated:
`ALLOWABLE_VALUES` restricts the key `"quantization"` while the stored
field is `"quantize"`, so a construction input with an out-of-enum
`quantize` value succeeds, stores the value, and surfaces it in
`getData`. -/
theorem c4_quantize_not_validated :
    mkAOV [("variable", .str "v"), ("vextype", .str "float"),
        ("quantize", .str "bogus")] =
      .ok { defaultAOVData with
              «variable» := .str "v",
              vextype := .str "float",
              quantize := .str "bogus" } ∧
    dlookup (getData { defaultAOVData with
                         «variable» := .str "v",
                         vextype := .str "float",
                         quantize := .str "bogus" }) "quantize" =
      some (.str "bogus") := by
  exact ⟨by decide, by decide⟩

/-- **C8 counterexample.** The claim says construction fails with a
missing-variable error whenever `variable` is unset; but with `variable`
unset and `vextype` out of enum, construction fails with
`InvalidAOVValueError` instead. -/
theorem c8_counterexample :
    mkAOV [("vextype", AValue.str "bogus")] =
      .error (.invalidAOVValue "vextype" (.str "bogus")
        ["float", "unitvector", "vector", "vector4"]) ∧
    mkAOV [("vextype", AValue.str "bogus")] ≠
      .error AOVError.missingVariable := by
  exact ⟨by decide, by decide⟩

/-- **C8 (amended).** Restricted-enum violations are detected first,
while iterating the input items: construction fails with
missing-variable when no enum violation exists and the folded `variable`
is unset; with missing-vextype (carrying the variable) when no violation
exists, `variable` is set and `vextype` is unset; with an invalid-value
error whenever some input item sets `vextype` to a value outside
{float, unitvector, vector, vector4}; and succeeds, returning the folded
data, when no violation exists and both `variable` and `vextype` are
set. -/
theorem c8_construction_validation (input : List (String × AValue)) :
    (firstEnumViolation input = none →
      (applyData defaultAOVData input).«variable» = .null →
      mkAOV input = .error .missingVariable) ∧
    (firstEnumViolation input = none →
      (applyData defaultAOVData input).«variable» ≠ .null →
      (applyData defaultAOVData input).vextype = .null →
      mkAOV input = .error
        (.missingVexType (applyData defaultAOVData input).«variable»)) ∧
    (∀ v, ("vextype", v) ∈ input →
      enumMember v ["float", "unitvector", "vector", "vector4"] = false →
      ∃ n v' a, mkAOV input = .error (.invalidAOVValue n v' a)) ∧
    (firstEnumViolation input = none →
      (applyData defaultAOVData input).«variable» ≠ .null →
      (applyData defaultAOVData input).vextype ≠ .null →
      mkAOV input = .ok (applyData defaultAOVData input)) := by
  refine ⟨?_, ?_, ?_, ?_⟩
  · intro h0 h1
    rw [mkAOV_spec, h0]
    simp [h1]
  · intro h0 h1 h2
    rw [mkAOV_spec, h0]
    rw [if_neg h1]
    simp [h2]
  · intro v hm hv
    have hok : enumOk "vextype" v = false := by
      unfold enumOk
      have : dlookup ALLOWABLE_VALUES "vextype" =
          some ["float", "unitvector", "vector", "vector4"] := by decide
      rw [this]
      exact hv
    obtain ⟨nv, hnv⟩ := firstEnumViolation_of_mem hm hok
    rw [mkAOV_spec, hnv]
    exact ⟨nv.1, nv.2, _, rfl⟩
  · intro h0 h1 h2
    rw [mkAOV_spec, h0]
    simp only []
    rw [if_neg h1, if_neg h2]

/-- Witness for C8: the three error modes and the success mode at
concrete inputs, via the amended theorem. -/
theorem c8_construction_validation_witness :
    mkAOV [] = .error .missingVariable ∧
    mkAOV [("variable", .str "v")] = .error (.missingVexType (.str "v")) ∧
    mkAOV [("variable", .str "v"), ("vextype", .str "float")] =
      .ok { defaultAOVData with
              «variable» := .str "v",
              vextype := .str "float" } := by
  refine ⟨?_, ?_, ?_⟩
  · exact (c8_construction_validation []).1 (by decide) (by decide)
  · exact (c8_construction_validation [("variable", .str "v")]).2.1
      (by decide) (by decide) (by decide)
  · exact (c8_construction_validation
      [("variable", .str "v"), ("vextype", .str "float")]).2.2.2
      (by decide) (by decide) (by decide)

theorem setField_unknown {d : AOVData} {k : String} {v : AValue}
    (hk : k ∉ dataFieldNames) : setField d k v = d := by
  simp only [dataFieldNames, List.mem_cons, List.not_mem_nil, or_false,
    not_or] at hk
  obtain ⟨h1, h2, h3, h4, h5, h6, h7, h8, h9, h10, h11, h12, h13, h14,
    h15, h16⟩ := hk
  simp [setField, h1, h2, h3, h4, h5, h6, h7, h8, h9, h10, h11, h12,
    h13, h14, h15, h16]

theorem applyData_skip {k : String} {v : AValue}
    (hk : k ∉ dataFieldNames) (l1 l2 : List (String × AValue)) :
    ∀ d, applyData d (l1 ++ (k, v) :: l2) = applyData d (l1 ++ l2) := by
  induction l1 with
  | nil =>
      intro d
      simp only [List.nil_append, applyData, setField_unknown hk]
  | cons p rest ih =>
      intro d
      obtain ⟨k0, v0⟩ := p
      simp only [List.cons_append, applyData]
      exact ih (setField d k0 v0)

theorem firstEnumViolation_skip {k : String} {v : AValue}
    (he : enumOk k v = true) (l1 l2 : List (String × AValue)) :
    firstEnumViolation (l1 ++ (k, v) :: l2) =
      firstEnumViolation (l1 ++ l2) := by
  induction l1 with
  | nil => simp only [List.nil_append, firstEnumViolation, he, if_true]
  | cons p rest ih =>
      obtain ⟨k0, v0⟩ := p
      simp only [List.cons_append, firstEnumViolation]
      by_cases h0 : enumOk k0 v0 = true
      · rw [if_pos h0, if_pos h0]
        exact ih
      · rw [if_neg h0, if_neg h0]

/-- **C10 counterexample.** The claim says a key outside the fixed field
set never causes construction to fail; but the unknown key
`"quantization"` (never stored — it is not a data field) is checked
against `ALLOWABLE_VALUES`, so it fails construction with an out-of-enum
value even when `variable`/`vextype` are fine. -/
theorem c10_counterexample :
    mkAOV [("variable", .str "v"), ("vextype", .str "float"),
        ("quantization", .str "bogus")] =
      .error (.invalidAOVValue "quantization" (.str "bogus")
        ["8", "16", "half", "float"]) := by
  decide

/-- **C10 (amended).** A key outside the fixed field set that is not the
enum-checked key `"quantization"` — or is `"quantization"` with an
in-enum value — is silently ignored: removing it from the input leaves
construction (and hence the `getData` projection) unchanged, so it is
never stored; but a `"quantization"` item with an out-of-enum value makes
construction fail with an invalid-value error. -/
theorem c10_unknown_keys (k : String) (v : AValue)
    (l1 l2 : List (String × AValue))
    (hk : k ∉ dataFieldNames) (he : enumOk k v = true) :
    (mkAOV (l1 ++ (k, v) :: l2) = mkAOV (l1 ++ l2)) ∧
    (∀ d d', mkAOV (l1 ++ (k, v) :: l2) = .ok d →
      mkAOV (l1 ++ l2) = .ok d' → getData d = getData d') ∧
    (∀ (input : List (String × AValue)) v',
      ("quantization", v') ∈ input →
      enumMember v' ["8", "16", "half", "float"] = false →
      ∃ n v'' a, mkAOV input = .error (.invalidAOVValue n v'' a)) := by
  have heq : mkAOV (l1 ++ (k, v) :: l2) = mkAOV (l1 ++ l2) := by
    rw [mkAOV_spec, mkAOV_spec, firstEnumViolation_skip he,
      applyData_skip hk]
  refine ⟨heq, ?_, ?_⟩
  · intro d d' h1 h2
    rw [heq, h2] at h1
    injection h1 with h1
    rw [h1]
  · intro input v' hm hv
    have hok : enumOk "quantization" v' = false := by
      unfold enumOk
      have : dlookup ALLOWABLE_VALUES "quantization" =
          some ["8", "16", "half", "float"] := by decide
      rw [this]
      exact hv
    obtain ⟨nv, hnv⟩ := firstEnumViolation_of_mem hm hok
    rw [mkAOV_spec, hnv]
    exact ⟨nv.1, nv.2, _, rfl⟩

/-- Witness for C10: a genuinely unknown key and an in-enum
`"quantization"` key are both dropped without effect. -/
theorem c10_unknown_keys_witness :
    mkAOV [("variable", .str "v"), ("vextype", .str "float"),
        ("custom", .str "x")] =
      mkAOV [("variable", .str "v"), ("vextype", .str "float")] ∧
    mkAOV [("variable", .str "v"), ("vextype", .str "float"),
        ("quantization", .str "8")] =
      mkAOV [("variable", .str "v"), ("vextype", .str "float")] := by
  constructor
  · exact (c10_unknown_keys "custom" (.str "x")
      [("variable", .str "v"), ("vextype", .str "float")] []
      (by decide) (by decide)).1
  · exact (c10_unknown_keys "quantization" (.str "8")
      [("variable", .str "v"), ("vextype", .str "float")] []
      (by decide) (by decide)).1

/-- **C5 counterexample.** The claim says `includes` always equals the
ordered member variable names; but after a member is added the stored
`_includes` list is still empty while the member list is not. -/
theorem c5_counterexample :
    (addAOV (mkGroup "grp")
      { defaultAOVData with
          «variable» := .str "N", vextype := .str "float" }).includes = [] ∧
    (addAOV (mkGroup "grp")
      { defaultAOVData with
          «variable» := .str "N", vextype := .str "float" }).aovs.map
        (·.«variable») = [.str "N"] ∧
    (addAOV (mkGroup "grp")
      { defaultAOVData with
          «variable» := .str "N", vextype := .str "float" }).includes ≠
    (addAOV (mkGroup "grp")
      { defaultAOVData with
          «variable» := .str "N", vextype := .str "float" }).aovs.map
        (·.«variable») := by
  exact ⟨by decide, by decide, by decide⟩

/-- **C5 (amended).** The `includes` property returns an independently
stored list: it is empty at construction and is not updated by member
addition or by `clear` (which also leaves it untouched while emptying
the member list); the derived ordered view of member variable names is
instead the `"include"` entry of `AOVGroup.getData`. -/
theorem c5_includes_independent (g : AOVGroup) (a : AOVData) (n : String) :
    (mkGroup n).includes = [] ∧
    (addAOV g a).includes = g.includes ∧
    (clearGroup g).includes = g.includes ∧
    (clearGroup g).aovs = [] ∧
    (groupGetData g).2.«include» = g.aovs.map (·.«variable») := by
  exact ⟨rfl, rfl, rfl, rfl, rfl⟩

/-- **C7 counterexample.** The claim says a truthy post-hook suppresses
all of the channel's property writes; but the post hook is called *after*
the property writes, so they are emitted anyway (only the end-block call
is skipped). -/
theorem c7_counterexample :
    IFDOp.rayProperty "plane" "variable" [.str "v"] ∈
      writeDataToIfd (fun _ _ _ _ => false) (fun _ _ _ _ => true)
        [("variable", .str "v"), ("vextype", .str "float"),
         ("channel", .str "c")] ∧
    IFDOp.rayEnd ∉
      writeDataToIfd (fun _ _ _ _ => false) (fun _ _ _ _ => true)
        [("variable", .str "v"), ("vextype", .str "float"),
         ("channel", .str "c")] := by
  exact ⟨by decide, by decide⟩

/-- **C7 (amended).** A truthy pre-hook cancels the whole write (nothing
is emitted); otherwise the property writes are emitted in the fixed order
`variable`, `vextype`, `channel`, then `quantize`, `planefile` (if
present and non-null), `lightexport`, `pfilter`, `sfilter`, `component`,
each optional one only when present in the dict — and a truthy post-hook
suppresses only the closing end-block call, not the property writes. -/
theorem c7_write_op_structure (pre post : HookFn) (data : PlaneDict) :
    (callDefPlaneHook pre data = true → writeDataToIfd pre post data = []) ∧
    (callDefPlaneHook pre data = false →
      writeDataToIfd pre post data =
        ([IFDOp.rayStart "plane",
          IFDOp.rayProperty "plane" "variable" [dget data "variable"],
          IFDOp.rayProperty "plane" "vextype" [dget data "vextype"],
          IFDOp.rayProperty "plane" "channel" [dget data "channel"]]
         ++ (if (dlookup data "quantize").isSome then
               [IFDOp.rayProperty "plane" "quantize" [dget data "quantize"]]
             else [])
         ++ (match dlookup data "planefile" with
             | some pf =>
                 if pf ≠ .null then
                   [IFDOp.rayProperty "plane" "planefile" [pf]]
                 else []
             | none => [])
         ++ (if (dlookup data "lightexport").isSome then
               [IFDOp.rayProperty "plane" "lightexport"
                 [dget data "lightexport"]]
             else [])
         ++ (if (dlookup data "pfilter").isSome then
               [IFDOp.rayProperty "plane" "pfilter" [dget data "pfilter"]]
             else [])
         ++ (if (dlookup data "sfilter").isSome then
               [IFDOp.rayProperty "plane" "sfilter" [dget data "sfilter"]]
             else [])
         ++ (if (dlookup data "component").isSome then
               [IFDOp.rayProperty "plane" "component"
                 [dget data "component"]]
             else []))
        ++ (if callDefPlaneHook post data then [] else [IFDOp.rayEnd])) := by
  constructor
  · intro h
    simp only [writeDataToIfd, h, if_true]
  · intro h
    simp only [writeDataToIfd, h, Bool.false_eq_true, if_false]
    by_cases hp : callDefPlaneHook post data = true
    · rw [if_pos hp, if_pos hp, List.append_nil]
    · rw [if_neg hp, if_neg hp]

/-- Witness for C7: with never-cancelling hooks on a concrete dict the
emitted sequence is exactly the fixed-order block. -/
theorem c7_write_op_structure_witness :
    writeDataToIfd (fun _ _ _ _ => false) (fun _ _ _ _ => false)
      [("variable", .str "v"), ("vextype", .str "float"),
       ("channel", .str "c"), ("quantize", .str "half")] =
      [IFDOp.rayStart "plane",
       IFDOp.rayProperty "plane" "variable" [.str "v"],
       IFDOp.rayProperty "plane" "vextype" [.str "float"],
       IFDOp.rayProperty "plane" "channel" [.str "c"],
       IFDOp.rayProperty "plane" "quantize" [.str "half"],
       IFDOp.rayEnd] := by
  have h := (c7_write_op_structure (fun _ _ _ _ => false)
    (fun _ _ _ _ => false)
    [("variable", .str "v"), ("vextype", .str "float"),
     ("channel", .str "c"), ("quantize", .str "half")]).2 (by decide)
  rw [h]
  decide

theorem writeDataToIfd_ext {pre post : HookFn} {d1 d2 : PlaneDict}
    (h : ∀ k, dlookup d1 k = dlookup d2 k) :
    writeDataToIfd pre post d1 = writeDataToIfd pre post d2 := by
  simp only [writeDataToIfd, callDefPlaneHook, dget, h]

/-- The number of opened plane blocks in a sink-call sequence. -/
def countStarts : List IFDOp → Nat
  | [] => 0
  | .rayStart _ :: rest => countStarts rest + 1
  | .rayProperty _ _ _ :: rest => countStarts rest
  | .rayEnd :: rest => countStarts rest

theorem countStarts_append (a b : List IFDOp) :
    countStarts (a ++ b) = countStarts a + countStarts b := by
  induction a with
  | nil => simp [countStarts]
  | cons x rest ih =>
      cases x with
      | rayStart s =>
          simp only [List.cons_append, countStarts]
          show countStarts (rest ++ b) + 1 = countStarts rest + 1 + countStarts b
          rw [ih]
          omega
      | rayProperty p n v =>
          simp only [List.cons_append, countStarts]
          exact ih
      | rayEnd =>
          simp only [List.cons_append, countStarts]
          exact ih

theorem countStarts_writeData (post : HookFn) (d : PlaneDict) :
    countStarts (writeDataToIfd (fun _ _ _ _ => false) post d) = 1 := by
  have hpre : callDefPlaneHook (fun _ _ _ _ => false) d = false := rfl
  simp only [writeDataToIfd, hpre, Bool.false_eq_true, if_false]
  have hseg1 : ∀ (c : Prop) [Decidable c] (p n : String) (v : List AValue),
      countStarts (if c then [IFDOp.rayProperty p n v] else []) = 0 := by
    intro c _ p n v
    split <;> rfl
  have hseg2 : countStarts
      (match dlookup d "planefile" with
       | some pf =>
           if pf = AValue.null then []
           else [IFDOp.rayProperty "plane" "planefile" [pf]]
       | none => []) = 0 := by
    cases dlookup d "planefile" with
    | none => rfl
    | some pf =>
        by_cases hn : pf = AValue.null
        · simp [hn, countStarts]
        · simp [hn, countStarts]
  by_cases hp : callDefPlaneHook post d = true
  · rw [if_pos hp]
    simp [countStarts, countStarts_append, hseg1]
    exact hseg2
  · rw [if_neg hp]
    simp [countStarts, countStarts_append, hseg1]
    exact hseg2

theorem dlookup_mapAppend (m : List (String × List Light)) (k k' : String)
    (l : Light) :
    dlookup (mapAppend m k l) k' =
      if k = k' then some ((dlookup m k).getD [] ++ [l])
      else dlookup m k' := by
  induction m with
  | nil => by_cases h : k = k' <;> simp [mapAppend, dlookup, h]
  | cons p rest ih =>
      obtain ⟨k0, ls⟩ := p
      by_cases h0 : k0 = k
      · subst h0
        simp only [mapAppend, if_pos rfl]
        by_cases h1 : k0 = k'
        · subst h1
          simp [dlookup]
        · simp [dlookup, h1]
      · simp only [mapAppend, if_neg h0]
        by_cases h1 : k0 = k'
        · subst h1
          have hkk : ¬ k = k0 := fun hh => h0 hh.symm
          simp [dlookup, hkk]
        · simp only [dlookup, if_neg h1, ih]
          by_cases h2 : k = k'
          · subst h2
            have : ¬ k0 = k := h0
            simp [dlookup, this]
          · simp [h2]

theorem mem_bucket_mapAppend {l : Light} {m : List (String × List Light)}
    {k : String} (hm : l ∈ (dlookup m k).getD []) (k' : String) (x : Light) :
    l ∈ (dlookup (mapAppend m k' x) k).getD [] := by
  rw [dlookup_mapAppend]
  by_cases h : k' = k
  · subst h
    simp only [Option.getD_some]
    exact List.mem_append_left _ hm
  · rw [if_neg h]
    exact hm

theorem mem_bucket_foldl {l : Light} (x : Light) (cs : List String) :
    ∀ m k, l ∈ (dlookup m k).getD [] →
      l ∈ (dlookup (cs.foldl (fun m c => mapAppend m c x) m) k).getD [] := by
  induction cs with
  | nil => intro m k hm; exact hm
  | cons c rest ih =>
      intro m k hm
      exact ih _ _ (mem_bucket_mapAppend hm c x)

theorem mem_bucket_catStep {l : Light} {m : List (String × List Light)}
    {k : String} (hm : l ∈ (dlookup m k).getD []) (x : Light) :
    l ∈ (dlookup (catStep m x) k).getD [] := by
  unfold catStep
  cases x.categories with
  | none => exact hm
  | some s =>
      simp only []
      by_cases hc : pySplit (commaToSpace s) = []
      · rw [if_pos hc]
        exact mem_bucket_mapAppend hm _ _
      · rw [if_neg hc]
        exact mem_bucket_foldl x _ _ _ hm

theorem mem_bucket_foldl_lights {l : Light} (ls : List Light) :
    ∀ m k, l ∈ (dlookup m k).getD [] →
      l ∈ (dlookup (ls.foldl catStep m) k).getD [] := by
  induction ls with
  | nil => intro m k hm; exact hm
  | cons x rest ih =>
      intro m k hm
      exact ih _ _ (mem_bucket_catStep hm x)

theorem categoryMap_skip {l : Light} (hc : l.categories = none)
    (ls1 ls2 : List Light) :
    categoryMap (ls1 ++ l :: ls2) = categoryMap (ls1 ++ ls2) := by
  unfold categoryMap
  rw [List.foldl_append, List.foldl_append, List.foldl_cons]
  have hstep : catStep (List.foldl catStep [] ls1) l =
      List.foldl catStep [] ls1 := by
    unfold catStep
    rw [hc]
  rw [hstep]

theorem catStep_none_bucket {l : Light} {s : String}
    (hc : l.categories = some s)
    (hsplit : pySplit (commaToSpace s) = [])
    (m : List (String × List Light)) :
    catStep m l = mapAppend m "__none__" l := by
  unfold catStep
  rw [hc]
  simp [hsplit]

theorem mem_none_bucket {l : Light} {s : String} (hc : l.categories = some s)
    (hsplit : pySplit (commaToSpace s) = []) (ls1 ls2 : List Light) :
    l ∈ (dlookup (categoryMap (ls1 ++ l :: ls2)) "__none__").getD [] := by
  unfold categoryMap
  rw [List.foldl_append, List.foldl_cons, catStep_none_bucket hc hsplit]
  apply mem_bucket_foldl_lights
  rw [dlookup_mapAppend, if_pos rfl]
  simp only [Option.getD_some]
  exact List.mem_append_right _ (by simp)

theorem perCatOps_eq_map (pre post : HookFn) (baseS : String)
    (cats : List (String × List Light)) :
    ∀ dataCur data0 : PlaneDict,
      (∀ k, k ≠ "lightexport" → k ≠ "channel" →
        dlookup dataCur k = dlookup data0 k) →
      perCatOps pre post baseS cats dataCur =
        (cats.map (fun p => writeDataToIfd pre post
          (dinsert (dinsert data0 "lightexport"
            (.str (String.intercalate " " (p.2.map Light.name)))) "channel"
            (.str (p.1 ++ "_" ++ baseS))))).flatten := by
  induction cats with
  | nil => intro dataCur data0 _; rfl
  | cons p rest ih =>
      intro dataCur data0 hagree
      obtain ⟨cat, ls⟩ := p
      simp only [perCatOps, List.map_cons, List.flatten_cons]
      have hkey : ∀ k,
          dlookup (dinsert (dinsert dataCur "lightexport"
            (.str (String.intercalate " " (ls.map Light.name)))) "channel"
            (.str (cat ++ "_" ++ baseS))) k =
          dlookup (dinsert (dinsert data0 "lightexport"
            (.str (String.intercalate " " (ls.map Light.name)))) "channel"
            (.str (cat ++ "_" ++ baseS))) k := by
        intro k
        rw [dlookup_dinsert, dlookup_dinsert, dlookup_dinsert,
          dlookup_dinsert]
        by_cases h1 : "channel" = k
        · simp [h1]
        · rw [if_neg h1, if_neg h1]
          by_cases h2 : "lightexport" = k
          · simp [h2]
          · rw [if_neg h2, if_neg h2]
            exact hagree k (fun hh => h2 hh.symm) (fun hh => h1 hh.symm)
      congr 1
      · exact writeDataToIfd_ext hkey
      · apply ih
        intro k hk1 hk2
        rw [dlookup_dinsert, dlookup_dinsert]
        rw [if_neg (fun hh => hk2 hh.symm), if_neg (fun hh => hk1 hh.symm)]
        exact hagree k hk1 hk2

theorem lightExportPlanes_perCat (pre post : HookFn) (aov : AOVData)
    (lights : List Light) (data : PlaneDict)
    (h : aov.lightexport = .str "per-category") :
    lightExportPlanes pre post aov lights data =
      ((categoryMap lights).map (fun p => writeDataToIfd pre post
        (dinsert (dinsert data "lightexport"
          (.str (String.intercalate " " (p.2.map Light.name)))) "channel"
          (.str (p.1 ++ "_" ++ (dget data "channel").fmt))))).flatten := by
  simp only [lightExportPlanes, h]
  rw [if_pos trivial]
  exact perCatOps_eq_map pre post _ (categoryMap lights) data data
    (fun _ _ _ => rfl)

theorem countStarts_blocks (post : HookFn)
    (f : (String × List Light) → PlaneDict)
    (cats : List (String × List Light)) :
    countStarts ((cats.map fun p =>
      writeDataToIfd (fun _ _ _ _ => false) post (f p)).flatten) =
      cats.length := by
  induction cats with
  | nil => rfl
  | cons p rest ih =>
      simp only [List.map_cons, List.flatten_cons, countStarts_append,
        countStarts_writeData, ih, List.length_cons]
      omega

/-- **C6 counterexample.** The claim says every matched light with no
category goes into the `"__none__"` bucket; but a light whose
`categories` parameter is absent is skipped entirely (`continue`): it
lands in no bucket and per-category expansion emits nothing for it. -/
theorem c6_counterexample :
    dlookup (categoryMap [⟨"/obj/light1", "", none, none⟩]) "__none__" =
      none ∧
    categoryMap [⟨"/obj/light1", "", none, none⟩] = [] ∧
    lightExportPlanes (fun _ _ _ _ => false) (fun _ _ _ _ => false)
      { defaultAOVData with
          «variable» := .str "v",
          vextype := .str "float",
          lightexport := .str "per-category" }
      [⟨"/obj/light1", "", none, none⟩]
      [("variable", .str "v"), ("vextype", .str "float"),
       ("channel", .str "v")] = [] := by
  exact ⟨by decide, by decide, by decide⟩

/-- **C6 (amended).** In per-category expansion a matched light whose
`categories` parameter is absent is skipped entirely, while a light whose
categories value is present but splits to nothing goes into the
`"__none__"` bucket; for each category bucket one write operation is
emitted whose `lightexport` is the member light names joined with spaces
and whose channel is `"{category}_{baseChannel}"` — exactly one block per
category under non-cancelling hooks. -/
theorem c6_per_category (pre post : HookFn) (aov : AOVData)
    (data : PlaneDict) (lights : List Light) (l : Light)
    (ls1 ls2 : List Light) (s : String) :
    (l.categories = none →
      categoryMap (ls1 ++ l :: ls2) = categoryMap (ls1 ++ ls2)) ∧
    (l.categories = some s → pySplit (commaToSpace s) = [] →
      l ∈ (dlookup (categoryMap (ls1 ++ l :: ls2)) "__none__").getD []) ∧
    (aov.lightexport = .str "per-category" →
      lightExportPlanes pre post aov lights data =
        ((categoryMap lights).map (fun p => writeDataToIfd pre post
          (dinsert (dinsert data "lightexport"
            (.str (String.intercalate " " (p.2.map Light.name)))) "channel"
            (.str (p.1 ++ "_" ++ (dget data "channel").fmt))))).flatten) ∧
    (aov.lightexport = .str "per-category" →
      countStarts (lightExportPlanes (fun _ _ _ _ => false) post aov
        lights data) = (categoryMap lights).length) := by
  refine ⟨?_, ?_, ?_, ?_⟩
  · intro hc
    exact categoryMap_skip hc ls1 ls2
  · intro hc hsplit
    exact mem_none_bucket hc hsplit ls1 ls2
  · intro h
    exact lightExportPlanes_perCat pre post aov lights data h
  · intro h
    rw [lightExportPlanes_perCat (fun _ _ _ _ => false) post aov lights
      data h]
    exact countStarts_blocks post _ (categoryMap lights)

/-- Witness for C6: a light with an empty categories value lands in the
`"__none__"` bucket, and two lights over two categories produce exactly
two write blocks. -/
theorem c6_per_category_witness :
    (⟨"/obj/l1", "", none, some ""⟩ : Light) ∈
      (dlookup (categoryMap [(⟨"/obj/l1", "", none, some ""⟩ : Light)])
        "__none__").getD [] ∧
    countStarts (lightExportPlanes (fun _ _ _ _ => false)
      (fun _ _ _ _ => false)
      { defaultAOVData with
          «variable» := .str "v",
          vextype := .str "float",
          lightexport := .str "per-category" }
      [⟨"/obj/l1", "", none, some "a"⟩, ⟨"/obj/l2", "", none, some "a b"⟩]
      [("variable", .str "v"), ("vextype", .str "float"),
       ("channel", .str "v")]) = 2 := by
  constructor
  · exact (c6_per_category (fun _ _ _ _ => false) (fun _ _ _ _ => false)
      defaultAOVData [] [] ⟨"/obj/l1", "", none, some ""⟩ [] [] "").2.1
      rfl (by decide)
  · have h := (c6_per_category (fun _ _ _ _ => false) (fun _ _ _ _ => false)
      { defaultAOVData with
          «variable» := .str "v",
          vextype := .str "float",
          lightexport := .str "per-category" }
      [("variable", .str "v"), ("vextype", .str "float"),
       ("channel", .str "v")]
      [⟨"/obj/l1", "", none, some "a"⟩, ⟨"/obj/l2", "", none, some "a b"⟩]
      ⟨"/obj/l1", "", none, some ""⟩ [] [] "").2.2.2 (by decide)
    rw [h]
    decide

end HT
